import Mathlib

/-!
Shallow embedding of the BOSHDeployment reconciler
(`pkg/kube/controllers/boshdeployment`, file with `Reconcile`,
`listLinkInfos`, `getServiceRecords`, `listPodsFromSelector`,
`createManifestWithOps`, `createQuarksJob`, `createQuarksSecrets`).

Cluster reads (List/Get calls) and external collaborators (manifest
resolver, variable converter, job factory, annotation JSON parsing) are
modelled as an explicit environment; the code under `src/` is translated
into pure functions over that environment.  Go maps are modelled as
association lists in insertion order (a deterministic refinement of the
unspecified Go map iteration order).  Go error strings quote names with
single quotes; the quotes are elided here, the surrounding message text is
kept verbatim.
-/

set_option autoImplicit false

/-- `bdm.QuarksLink` job instance entry (`bdm.JobInstance`), built in
`listLinkInfos` from a backing pod: `Name`, `ID`, `Index`, `Address`,
`Bootstrap`. -/
structure JobInstance where
  name : String
  id : String
  index : Nat
  address : String
  bootstrap : Bool
deriving DecidableEq, Repr

/-- `bdm.QuarksLink`: `Type`, `Address`, `Instances`. -/
structure QuarksLink where
  type : String
  address : String
  instances : List JobInstance
deriving DecidableEq, Repr

/-- `converter.LinkInfo`: one resolved pairing of a missing provider with a
secret (`SecretName`, `ProviderName`, `ProviderType`). -/
structure LinkInfo where
  secretName : String
  providerName : String
  providerType : String
deriving DecidableEq, Repr

/-- A manifest property value: either the `quarks_links` map of resolved
links, or some other opaque value (the Go type is `map[string]interface`). -/
inductive PropVal where
  | links (entries : List (String × QuarksLink))
  | other (s : String)
deriving DecidableEq, Repr

/-- `bdm.Manifest`, restricted to what the reconciler touches: the
`Properties` map (nil-able in Go, hence `Option`), the variable names, and
the derived view `ListMissingProviders`.

The field `missingProviders` is modelled from the spec: the body of
`bdm.Manifest.ListMissingProviders` is not under `src/`; per the spec it is
the set of consumer names declared by the manifest but not satisfied
internally, each initially unmarked (Go: a `map[string]bool` with `false`
values). -/
structure Manifest where
  properties : Option (List (String × PropVal))
  vars : List String
  missingProviders : List String
deriving DecidableEq, Repr

/-- Link provider descriptor parsed from a secret annotation
(`newLinkProvider`): `{name, providerType}`. -/
structure LinkProvider where
  name : String
  providerType : String
deriving DecidableEq, Repr

/-- A `corev1.Secret` as the link resolver sees it: name and annotations. -/
structure Secret where
  name : String
  annotations : List (String × String)
deriving DecidableEq, Repr

/-- A `corev1.Service` as the link resolver sees it: name, annotations and
label selector. -/
structure Service where
  name : String
  annotations : List (String × String)
  selector : List (String × String)
deriving DecidableEq, Repr

/-- A `corev1.Pod` as the link resolver sees it: namespace, name, UID and
`Status.PodIP`. -/
structure Pod where
  ns : String
  name : String
  uid : String
  podIP : String
deriving DecidableEq, Repr

/-- `serviceRecord`: pod selector plus synthesized DNS record. -/
structure ServiceRecord where
  selector : List (String × String)
  dnsRecord : String
deriving DecidableEq, Repr

/-- Association-list lookup, first match wins (Go map indexing). -/
def lookupA {α : Type} : List (String × α) → String → Option α
  | [], _ => none
  | (k2, v) :: rest, k => if k2 = k then some v else lookupA rest k

/-- Association-list insert-or-replace (Go map assignment), preserving the
position of an existing key and appending a fresh key at the end. -/
def insertA {α : Type} : List (String × α) → String → α → List (String × α)
  | [], k, v => [(k, v)]
  | (k2, v2) :: rest, k, v =>
    if k2 = k then (k, v) :: rest else (k2, v2) :: insertA rest k v

/-- `bdv1.LabelDeploymentName`, used as the deployment-name annotation key.
The literal value is not under `src/`; no claim depends on it. -/
def LabelDeploymentName : String := "quarks.cloudfoundry.org/deployment-name"

/-- `bdv1.AnnotationLinkProviderService`, the provider-name annotation on
services.  The literal value is not under `src/`; no claim depends on it. -/
def AnnotationLinkProviderService : String := "quarks.cloudfoundry.org/link-provider-name"

/-- Environment of the link resolver: results of the two namespace-scoped
listing calls, the pod listing call per selector, the annotation parser
`newLinkProvider` (its body is not under `src/`), and the cluster domain
used by `boshdns.GetClusterDomain`. -/
structure LinkEnv where
  secrets : Except String (List Secret)
  services : Except String (List Service)
  podsFor : String → List (String × String) → Except String (List Pod)
  parseLink : List (String × String) → Except String LinkProvider
  clusterDomain : String

/-- The secret loop of `listLinkInfos` (lines 290-315): for each secret
annotated with the current deployment name, parse its link provider; on a
provider already marked found fail with a duplicate error; otherwise record
a `LinkInfo`, register a pending `QuarksLink` when the provider type is
non-empty, and mark the provider found. -/
def processSecrets (env : LinkEnv) (instName : String) :
    List Secret → List LinkInfo → List (String × QuarksLink) → List (String × Bool) →
    Except String (List LinkInfo × List (String × QuarksLink) × List (String × Bool))
  | [], li, ql, mp => .ok (li, ql, mp)
  | s :: rest, li, ql, mp =>
    match lookupA s.annotations LabelDeploymentName with
    | some dn =>
      if dn = instName then
        match env.parseLink s.annotations with
        | .error e => .error ("failed to parse link JSON for  " ++ instName ++ ": " ++ e)
        | .ok lp =>
          match lookupA mp lp.name with
          | some dup =>
            if dup then .error ("duplicated secrets of provider: " ++ lp.name)
            else
              processSecrets env instName rest
                (li ++ [{ secretName := s.name, providerName := lp.name,
                          providerType := lp.providerType }])
                (if lp.providerType ≠ "" then
                  insertA ql s.name { type := lp.providerType, address := "", instances := [] }
                 else ql)
                (insertA mp lp.name true)
          | none => processSecrets env instName rest li ql mp
      else processSecrets env instName rest li ql mp
    | none => processSecrets env instName rest li ql mp

/-- `getServiceRecords` (lines 375-394): for each service annotated with the
deployment name and carrying a provider-name annotation, fail if the
provider name was already claimed, else record selector and DNS record. -/
def getServiceRecords (domain ns name : String) :
    List Service → List (String × ServiceRecord) →
    Except String (List (String × ServiceRecord))
  | [], acc => .ok acc
  | svc :: rest, acc =>
    match lookupA svc.annotations LabelDeploymentName with
    | some dn =>
      if dn = name then
        match lookupA svc.annotations AnnotationLinkProviderService with
        | some providerName =>
          match lookupA acc providerName with
          | some _ => .error ("duplicated services of provider: " ++ providerName)
          | none =>
            getServiceRecords domain ns name rest
              (acc ++ [(providerName,
                { selector := svc.selector,
                  dnsRecord := svc.name ++ "." ++ ns ++ ".svc." ++ domain })])
        | none => getServiceRecords domain ns name rest acc
      else getServiceRecords domain ns name rest acc
    | none => getServiceRecords domain ns name rest acc

/-- `listPodsFromSelector` (lines 397-412): list the pods matching the
selector; a failed listing is wrapped, an empty listing is an error. -/
def listPodsFromSelector (env : LinkEnv) (ns : String)
    (selector : List (String × String)) : Except String (List Pod) :=
  match env.podsFor ns selector with
  | .error e => .error ("listing pods from selector: " ++ e)
  | .ok pods => if pods.length = 0 then .error "got an empty list of pods" else .ok pods

/-- The pod loop of `listLinkInfos` (lines 330-341): one `JobInstance` per
pod in listing order, failing on a pod with an empty `PodIP`; the counter
`i` is the listing index, `bootstrap` is `i == 0`. -/
def buildInstances (qName : String) : List Pod → Nat → Except String (List JobInstance)
  | [], _ => .ok []
  | p :: rest, i =>
    if p.podIP = "" then
      .error ("empty ip of kube native component: " ++ p.ns ++ "/" ++ p.name)
    else
      match buildInstances qName rest (i + 1) with
      | .error e => .error e
      | .ok tail =>
        .ok ({ name := qName, id := p.uid, index := i, address := p.podIP,
               bootstrap := decide (i = 0) } :: tail)

/-- One iteration of the pending-link loop of `listLinkInfos` (lines
322-350): a pending link whose secret name has a service record gets pods
listed and instances built; one without a service record is left as is. -/
def resolveEntry (env : LinkEnv) (ns instName : String)
    (sr : List (String × ServiceRecord)) (qName : String) (q : QuarksLink) :
    Except String QuarksLink :=
  match lookupA sr qName with
  | none => .ok q
  | some svcRecord =>
    match listPodsFromSelector env ns svcRecord.selector with
    | .error e => .error ("Failed to get link pods for " ++ instName ++ ": " ++ e)
    | .ok pods =>
      match buildInstances qName pods 0 with
      | .error e => .error e
      | .ok insts => .ok { type := q.type, address := svcRecord.dnsRecord, instances := insts }

/-- The pending-link loop of `listLinkInfos` over all registered links.  Go
iterates the `quarksLinks` map keys in unspecified order updating each key
independently; this maps the entries in insertion order. -/
def resolveAll (env : LinkEnv) (ns instName : String)
    (sr : List (String × ServiceRecord)) :
    List (String × QuarksLink) → Except String (List (String × QuarksLink))
  | [] => .ok []
  | (n, q) :: rest =>
    match resolveEntry env ns instName sr n q with
    | .error e => .error e
    | .ok q2 =>
      match resolveAll env ns instName sr rest with
      | .error e => .error e
      | .ok rest2 => .ok ((n, q2) :: rest2)

/-- The guarded body of `listLinkInfos` (lines 272-351): when missing
providers exist, list secrets and services, run the secret loop, build
service records and resolve each pending link; when none exist, skip all
listing work. -/
def linkPass (env : LinkEnv) (ns instName : String) (manifest : Manifest) :
    Except String (List LinkInfo × List (String × QuarksLink) × List (String × Bool)) :=
  let mp0 := manifest.missingProviders.map (fun n => (n, false))
  if manifest.missingProviders.length ≠ 0 then
    match env.secrets with
    | .error e => .error ("listing secrets for link in deployment " ++ instName ++ ": " ++ e)
    | .ok ss =>
      match env.services with
      | .error e => .error ("listing services for link in deployment " ++ instName ++ ": " ++ e)
      | .ok svcs =>
        match processSecrets env instName ss [] [] mp0 with
        | .error e => .error e
        | .ok (li, ql, mp) =>
          match getServiceRecords env.clusterDomain ns instName svcs [] with
          | .error e => .error ("failed to get link services for " ++ instName ++ ": " ++ e)
          | .ok sr =>
            match resolveAll env ns instName sr ql with
            | .error e => .error e
            | .ok ql2 => .ok (li, ql2, mp)
  else .ok ([], [], mp0)

/-- The still-unmatched provider names (lines 353-358), in map order. -/
def unmatched (mp : List (String × Bool)) : List String :=
  (mp.filter (fun p => !p.2)).map (fun p => p.1)

/-- Lines 364-369: inject the resolved links under `quarks_links` when at
least one pending link was registered, materializing a nil property map. -/
def injectLinks (manifest : Manifest) (ql : List (String × QuarksLink)) : Manifest :=
  if ql.length ≠ 0 then
    let props := match manifest.properties with | none => [] | some ps => ps
    { manifest with properties := some (insertA props "quarks_links" (PropVal.links ql)) }
  else manifest

/-- Whether the manifest property map carries a key. -/
def hasProp (manifest : Manifest) (k : String) : Bool :=
  match manifest.properties with
  | none => false
  | some ps => (lookupA ps k).isSome

/-- `listLinkInfos` (lines 264-372): run the guarded pass, fail with the
aggregated missing-provider message when names remain unmatched, otherwise
inject the resolved links and return the link infos together with the
(possibly updated) manifest. -/
def listLinkInfos (env : LinkEnv) (ns instName : String) (manifest : Manifest) :
    Except String (List LinkInfo × Manifest) :=
  match linkPass env ns instName manifest with
  | .error e => .error e
  | .ok (li, ql, mp) =>
    let missingPs := unmatched mp
    if missingPs.length ≠ 0 then
      .error ("missing link secrets for providers: " ++ String.intercalate ", " missingPs)
    else .ok (li, injectLinks manifest ql)

/-- Outcome of `controllerutil.CreateOrUpdate`. -/
inductive OpResult where
  | created
  | updated
  | unchanged
deriving DecidableEq, Repr

/-- One mutating cluster call issued by the reconcile pipeline (each apply
records the create-or-update outcome; `qsStatusUpdate` records the
`Status().Update` call persisting the `Generated` flag of a quarks secret;
`bdplStatusUpdate` records the `Status().Update` call persisting
`LastReconcile`). -/
inductive Effect where
  | applySecret (name : String) (op : OpResult)
  | applyQuarksSecret (name : String) (op : OpResult)
  | qsStatusUpdate (name : String) (generated : Bool)
  | applyQuarksJob (name : String) (op : OpResult)
  | bdplStatusUpdate
deriving DecidableEq, Repr

/-- The `BOSHDeployment` instance as the reconciler reads it: identity,
`ObjectMeta.Generation` and `Status.LastReconcile`. -/
structure BOSHDeployment where
  name : String
  ns : String
  generation : Nat
  lastReconcile : Option Int
deriving DecidableEq, Repr

/-- Result of the initial `client.Get` on the request key. -/
inductive GetResult where
  | notFound
  | err (msg : String)
  | found (inst : BOSHDeployment)
deriving DecidableEq, Repr

/-- Environment of one reconcile invocation: the fetched instance, the
clock, the meltdown configuration, the link-resolver environment, and the
results of every collaborator and cluster call the pipeline makes. -/
structure RecEnv where
  getInstance : GetResult
  now : Int
  meltdownDuration : Int
  meltdownRequeueAfter : Int
  linkEnv : LinkEnv
  withopsManifest : Except String Manifest
  marshal : Manifest → Except String String
  setRef : String → String → Except String Unit
  applySecret : String → Except String OpResult
  variablesOf : String → List String → Except String (List String)
  applyQuarksSecret : String → Except String OpResult
  qsStatusUpdate : String → Except String Unit
  viJob : String → Manifest → Except String String
  igJob : String → Manifest → List LinkInfo → Bool → Except String String
  applyQuarksJob : String → Except String OpResult
  bdplStatusUpdate : Except String Unit

/-- Result of one reconcile invocation: the returned `reconcile.Result`
(`requeue`, `requeueAfter`) and error, the trace of mutating calls issued,
and the persisted `LastReconcile` timestamp when the final status write
succeeded. -/
structure Outcome where
  requeue : Bool
  requeueAfter : Int
  err : Option String
  effects : List Effect
  persistedLastReconcile : Option Int
deriving DecidableEq, Repr

/-- Modelled from the spec: the Meltdown Guard
(`meltdown.NewWindow(duration, lastReconcile).Contains(now)`, from the
`quarks-utils` collaborator, not under `src/`) returns whether `now` falls
inside the half-open window starting at the last successful reconcile. -/
def meltdownContains (duration : Int) (lastReconcile : Option Int) (now : Int) : Bool :=
  match lastReconcile with
  | none => false
  | some t => decide (t ≤ now ∧ now < t + duration)

/-- Modelled from the spec: `names.DeploymentSecretName` (from the
`quarks-utils` collaborator, not under `src/`) is a deterministic pure
function of the deployment name for the manifest-with-ops type tag. -/
def manifestSecretName (deploymentName : String) : String :=
  deploymentName ++ ".with-ops"

/-- An aborted reconcile: empty `reconcile.Result`, the wrapped error, the
effects issued so far, no persisted timestamp. -/
def abortOutcome (msg : String) (effs : List Effect) : Outcome :=
  { requeue := false, requeueAfter := 0, err := some msg, effects := effs,
    persistedLastReconcile := none }

/-- `createManifestWithOps` (lines 204-244): marshal the manifest, set
ownership on the manifest secret and apply it;
returns the secret name and the issued effect. -/
def createManifestWithOps (env : RecEnv) (instName : String) (manifest : Manifest) :
    Except String (String × List Effect) :=
  match env.marshal manifest with
  | .error e => .error ("Error marshaling the manifest " ++ instName ++ ": " ++ e)
  | .ok _ =>
    match env.setRef instName (manifestSecretName instName) with
    | .error e =>
      .error ("failed to set ownerReference for Secret " ++ manifestSecretName instName ++ ": " ++ e)
    | .ok _ =>
      match env.applySecret (manifestSecretName instName) with
      | .error e => .error ("failed to apply Secret " ++ manifestSecretName instName ++ ": " ++ e)
      | .ok op => .ok (manifestSecretName instName, [Effect.applySecret (manifestSecretName instName) op])

/-- `createQuarksJob` (lines 247-260): set ownership and apply the job. -/
def createQuarksJob (env : RecEnv) (instName jobName : String) :
    Except String (List Effect) :=
  match env.setRef instName jobName with
  | .error e => .error ("failed to set ownerReference for QuarksJob " ++ jobName ++ ": " ++ e)
  | .ok _ =>
    match env.applyQuarksJob jobName with
    | .error e => .error ("creating or updating QuarksJob " ++ jobName ++ ": " ++ e)
    | .ok op => .ok [Effect.applyQuarksJob jobName op]

/-- `createQuarksSecrets` (lines 415-446): for each variable secret, set
the manifest secret as owner and apply it; exactly when the apply reports
`updated`, reset `Status.Generated` to `false` and persist it (the
`qsStatusUpdate _ false` effect); abort on the first failure, returning the
effects issued so far. -/
def createQuarksSecrets (env : RecEnv) (ownerName : String) :
    List String → List Effect × Option String
  | [] => ([], none)
  | v :: rest =>
    match env.setRef ownerName v with
    | .error e => ([], some ("failed to set ownership for " ++ v ++ ": " ++ e))
    | .ok _ =>
      match env.applyQuarksSecret v with
      | .error e => ([], some ("creating or updating QuarksSecret " ++ v ++ ": " ++ e))
      | .ok op =>
        if op = OpResult.updated then
          match env.qsStatusUpdate v with
          | .error e => ([Effect.applyQuarksSecret v op, Effect.qsStatusUpdate v false], some e)
          | .ok _ =>
            let tail := createQuarksSecrets env ownerName rest
            (Effect.applyQuarksSecret v op :: Effect.qsStatusUpdate v false :: tail.1, tail.2)
        else
          let tail := createQuarksSecrets env ownerName rest
          (Effect.applyQuarksSecret v op :: tail.1, tail.2)

/-- The pipeline of `Reconcile` after the fetch and the meltdown check
(lines 111-189): resolve the manifest, resolve links, apply the
manifest-with-ops secret, convert and apply variable secrets, build and
apply the two quarks jobs, then best-effort persist `LastReconcile` (a
failed status write is logged and the reconcile still returns success with
no requeue). -/
def reconcileLoaded (env : RecEnv) (inst : BOSHDeployment) : Outcome :=
  match env.withopsManifest with
  | .error e =>
    abortOutcome ("failed to get with-ops manifest for BOSHDeployment " ++ inst.name ++ ": " ++ e) []
  | .ok manifest =>
    match listLinkInfos env.linkEnv inst.ns inst.name manifest with
    | .error e =>
      abortOutcome ("failed to list quarks-link secrets for BOSHDeployment " ++ inst.name ++ ": " ++ e) []
    | .ok (linkInfos, manifest2) =>
      match createManifestWithOps env inst.name manifest2 with
      | .error e =>
        abortOutcome ("failed to create with-ops manifest secret for BOSHDeployment " ++ inst.name ++ ": " ++ e) []
      | .ok (manifestSecret, effs1) =>
        match env.variablesOf inst.name manifest2.vars with
        | .error e => abortOutcome ("failed to generate quarks secrets from manifest: " ++ e) effs1
        | .ok vars =>
          let varRes := if vars.length > 0 then createQuarksSecrets env manifestSecret vars else ([], none)
          match varRes.2 with
          | some e =>
            abortOutcome ("failed to create quarks secrets for BOSH manifest " ++ inst.name ++ ": " ++ e)
              (effs1 ++ varRes.1)
          | none =>
            match env.viJob inst.name manifest2 with
            | .error e => abortOutcome ("failed to build the desired manifest qJob: " ++ e) (effs1 ++ varRes.1)
            | .ok job1 =>
              match createQuarksJob env inst.name job1 with
              | .error e =>
                abortOutcome ("failed to create desired manifest qJob for BOSHDeployment " ++ inst.name ++ ": " ++ e)
                  (effs1 ++ varRes.1)
              | .ok effs3 =>
                match env.igJob inst.name manifest2 linkInfos (decide (inst.generation = 1)) with
                | .error e =>
                  abortOutcome ("failed to build instance group manifest qJob: " ++ e)
                    (effs1 ++ varRes.1 ++ effs3)
                | .ok job2 =>
                  match createQuarksJob env inst.name job2 with
                  | .error e =>
                    abortOutcome ("failed to create instance group manifest qJob for BOSHDeployment " ++ inst.name ++ ": " ++ e)
                      (effs1 ++ varRes.1 ++ effs3)
                  | .ok effs4 =>
                    let effs := effs1 ++ varRes.1 ++ effs3 ++ effs4 ++ [Effect.bdplStatusUpdate]
                    match env.bdplStatusUpdate with
                    | .error _ =>
                      { requeue := false, requeueAfter := 0, err := none, effects := effs,
                        persistedLastReconcile := none }
                    | .ok _ =>
                      { requeue := false, requeueAfter := 0, err := none, effects := effs,
                        persistedLastReconcile := some env.now }

/-- `Reconcile` (lines 83-190): fetch the instance (not-found is terminal
success), check the meltdown window (inside it, return success with the
configured requeue delay and do nothing), otherwise run the pipeline. -/
def Reconcile (env : RecEnv) : Outcome :=
  match env.getInstance with
  | GetResult.notFound =>
    { requeue := false, requeueAfter := 0, err := none, effects := [],
      persistedLastReconcile := none }
  | GetResult.err e =>
    { requeue := false, requeueAfter := 0, err := some ("failed to get BOSHDeployment: " ++ e),
      effects := [], persistedLastReconcile := none }
  | GetResult.found inst =>
    if meltdownContains env.meltdownDuration inst.lastReconcile env.now then
      { requeue := false, requeueAfter := env.meltdownRequeueAfter, err := none, effects := [],
        persistedLastReconcile := none }
    else reconcileLoaded env inst

theorem lookupA_insertA_self {α : Type} (m : List (String × α)) (k : String) (v : α) :
    lookupA (insertA m k v) k = some v := by
  induction m with
  | nil => simp [insertA, lookupA]
  | cons hd tl ih =>
    obtain ⟨k2, v2⟩ := hd
    by_cases h : k2 = k
    · simp [insertA, h, lookupA]
    · simp [insertA, h, lookupA, ih]

theorem lookupA_insertA_ne {α : Type} (m : List (String × α)) (k k2 : String) (v : α)
    (h : k2 ≠ k) : lookupA (insertA m k v) k2 = lookupA m k2 := by
  induction m with
  | nil =>
    simp only [insertA, lookupA]
    rw [if_neg (fun h2 : k = k2 => h h2.symm)]
  | cons hd tl ih =>
    obtain ⟨k3, v3⟩ := hd
    by_cases h3 : k3 = k
    · simp only [insertA, if_pos h3, lookupA]
      rw [if_neg (fun h2 : k = k2 => h h2.symm), if_neg (fun h2 : k3 = k2 => h (h2 ▸ h3))]
    · simp only [insertA, if_neg h3, lookupA]
      by_cases h4 : k3 = k2
      · simp [h4]
      · simp [h4, ih]

theorem map_fst_insertA_of_lookup {α : Type} (m : List (String × α)) (k : String) (v w : α)
    (h : lookupA m k = some w) : (insertA m k v).map Prod.fst = m.map Prod.fst := by
  induction m with
  | nil => simp [lookupA] at h
  | cons hd tl ih =>
    obtain ⟨k2, v2⟩ := hd
    by_cases h2 : k2 = k
    · simp [insertA, h2]
    · simp only [lookupA, if_neg h2] at h
      simp [insertA, if_neg h2, ih h]

theorem mem_insertA_out {α : Type} (m : List (String × α)) (k : String) (v : α)
    (x : String × α) (h : x ∈ insertA m k v) : x ∈ m ∨ x = (k, v) := by
  induction m with
  | nil => simp [insertA] at h; simp [h]
  | cons hd tl ih =>
    obtain ⟨k2, v2⟩ := hd
    by_cases h2 : k2 = k
    · simp only [insertA, if_pos h2] at h
      rcases List.mem_cons.mp h with h3 | h3
      · right; exact h3
      · left; exact List.mem_cons_of_mem _ h3
    · simp only [insertA, if_neg h2] at h
      rcases List.mem_cons.mp h with h3 | h3
      · left; simp [h3]
      · rcases ih h3 with h4 | h4
        · left; exact List.mem_cons_of_mem _ h4
        · right; exact h4

theorem mem_map_fst_insertA {α : Type} (m : List (String × α)) (k k2 : String) (v : α)
    (h : k2 ∈ m.map Prod.fst) : k2 ∈ (insertA m k v).map Prod.fst := by
  induction m with
  | nil => simp at h
  | cons hd tl ih =>
    obtain ⟨k3, v3⟩ := hd
    by_cases h3 : k3 = k
    · subst h3
      simpa [insertA] using h
    · simp only [List.map_cons] at h
      rcases List.mem_cons.mp h with h4 | h4
      · simp [insertA, if_neg h3, h4]
      · simp [insertA, if_neg h3, ih h4]

theorem mem_map_fst_insertA_self {α : Type} (m : List (String × α)) (k : String) (v : α) :
    k ∈ (insertA m k v).map Prod.fst := by
  induction m with
  | nil => simp [insertA]
  | cons hd tl ih =>
    obtain ⟨k3, v3⟩ := hd
    by_cases h3 : k3 = k
    · simp [insertA, h3]
    · simp [insertA, if_neg h3]
      right
      simpa using ih

theorem lookupA_const_false (l : List String) (p : String) :
    lookupA (l.map fun n => (n, false)) p = if p ∈ l then some false else none := by
  induction l with
  | nil => simp [lookupA]
  | cons hd tl ih =>
    simp only [List.map_cons, lookupA]
    by_cases h : hd = p
    · simp [h]
    · have h2 : ¬(p = hd) := fun h3 => h h3.symm
      rw [if_neg h, ih]
      simp [List.mem_cons, h2]

theorem nodup_keys_val_eq {α : Type} (m : List (String × α)) (hnd : (m.map Prod.fst).Nodup)
    (n : String) (a b : α) (ha : (n, a) ∈ m) (hb : (n, b) ∈ m) : a = b := by
  induction m with
  | nil => simp at ha
  | cons hd tl ih =>
    simp only [List.map_cons, List.nodup_cons] at hnd
    rcases List.mem_cons.mp ha with h1 | h1 <;> rcases List.mem_cons.mp hb with h2 | h2
    · rw [← h1] at h2; exact (Prod.mk.injEq _ _ _ _ ▸ h2.symm).2
    · exfalso
      apply hnd.1
      have : hd.1 = n := by rw [← h1]
      rw [this]
      exact List.mem_map.mpr ⟨(n, b), h2, rfl⟩
    · exfalso
      apply hnd.1
      have : hd.1 = n := by rw [← h2]
      rw [this]
      exact List.mem_map.mpr ⟨(n, a), h1, rfl⟩
    · exact ih hnd.2 h1 h2

theorem lookupA_append {α : Type} (l1 l2 : List (String × α)) (k : String) :
    lookupA (l1 ++ l2) k =
      match lookupA l1 k with
      | some v => some v
      | none => lookupA l2 k := by
  induction l1 with
  | nil => simp [lookupA]
  | cons hd tl ih =>
    obtain ⟨k2, v2⟩ := hd
    by_cases h : k2 = k
    · simp [lookupA, h]
    · simp [lookupA, h, ih]

theorem processSecrets_invariants (env : LinkEnv) (instName : String) (ss : List Secret) :
    ∀ li ql mp li2 ql2 mp2,
    processSecrets env instName ss li ql mp = .ok (li2, ql2, mp2) →
    (∀ x ∈ li, x ∈ li2) ∧
    (mp2.map Prod.fst = mp.map Prod.fst) ∧
    (∀ k, k ∈ ql.map Prod.fst → k ∈ ql2.map Prod.fst) ∧
    (∀ e ∈ ql2, e ∈ ql ∨
      (e.2.type ≠ "" ∧ e.2.address = "" ∧ e.2.instances = [] ∧
        ∃ j ∈ li2, j.secretName = e.1 ∧ j.providerType = e.2.type)) ∧
    (∀ j ∈ li2, j ∈ li ∨ (j.providerType ≠ "" → j.secretName ∈ ql2.map Prod.fst)) := by
  induction ss with
  | nil =>
    intro li ql mp li2 ql2 mp2 h
    obtain ⟨rfl, rfl, rfl⟩ : li = li2 ∧ ql = ql2 ∧ mp = mp2 := by
      simpa [processSecrets] using h
    exact ⟨fun x hx => hx, rfl, fun k hk => hk, fun e he => Or.inl he, fun j hj => Or.inl hj⟩
  | cons s rest ih =>
    intro li ql mp li2 ql2 mp2 h
    simp only [processSecrets] at h
    split at h
    · next dn hdn =>
        split at h
        · next hd =>
            split at h
            · next e hp => exact absurd h (by simp)
            · next lp hp =>
              split at h
              · next dup hlk =>
                  split at h
                  · exact absurd h (by simp)
                  · next hdup =>
                      have hdupf : dup = false := by
                        cases dup
                        · rfl
                        · exact absurd rfl hdup
                      subst hdupf
                      obtain ⟨h1, h2, h3, h4, h5⟩ := ih _ _ _ li2 ql2 mp2 h
                      have hli : ∀ x ∈ li, x ∈ li2 := fun x hx =>
                        h1 x (List.mem_append_left _ hx)
                      have hnew : (⟨s.name, lp.name, lp.providerType⟩ : LinkInfo) ∈ li2 :=
                        h1 _ (List.mem_append_right _ (List.mem_singleton.mpr rfl))
                      refine ⟨hli, ?_, ?_, ?_, ?_⟩
                      · rw [h2, map_fst_insertA_of_lookup mp lp.name true false hlk]
                      · intro k hk
                        apply h3
                        by_cases ht : lp.providerType ≠ ""
                        · rw [if_pos ht]
                          exact mem_map_fst_insertA _ _ _ _ hk
                        · rw [if_neg ht]; exact hk
                      · intro e he
                        rcases h4 e he with h6 | h6
                        · by_cases ht : lp.providerType ≠ ""
                          · rw [if_pos ht] at h6
                            rcases mem_insertA_out _ _ _ _ h6 with h7 | h7
                            · exact Or.inl h7
                            · right
                              rw [h7]
                              exact ⟨ht, rfl, rfl, _, hnew, rfl, rfl⟩
                          · rw [if_neg ht] at h6; exact Or.inl h6
                        · exact Or.inr h6
                      · intro j hj
                        rcases h5 j hj with h6 | h6
                        · rcases List.mem_append.mp h6 with h7 | h7
                          · exact Or.inl h7
                          · right
                            intro ht
                            have hj2 : j = (⟨s.name, lp.name, lp.providerType⟩ : LinkInfo) :=
                              List.mem_singleton.mp h7
                            have ht2 : lp.providerType ≠ "" := by
                              rw [hj2] at ht
                              exact ht
                            apply h3
                            rw [if_pos ht2, hj2]
                            exact mem_map_fst_insertA_self _ _ _
                        · exact Or.inr h6
              · next hlk => exact ih li ql mp li2 ql2 mp2 h
        · next hd => exact ih li ql mp li2 ql2 mp2 h
    · next hdn => exact ih li ql mp li2 ql2 mp2 h

/-- Whether a secret is annotated for the deployment and declares provider
name `p` (its annotation parses to a descriptor named `p`). -/
def declaresB (env : LinkEnv) (instName p : String) (s : Secret) : Bool :=
  match lookupA s.annotations LabelDeploymentName with
  | some dn =>
    if dn = instName then
      match env.parseLink s.annotations with
      | .ok lp => decide (lp.name = p)
      | .error _ => false
    else false
  | none => false

/-- Number of secrets in the listing declaring provider name `p` for the
deployment. -/
def declCount (env : LinkEnv) (instName p : String) (ss : List Secret) : Nat :=
  (ss.filter (declaresB env instName p)).length

/-- Every deployment-annotated secret in the listing parses. -/
def allParseOk (env : LinkEnv) (instName : String) (ss : List Secret) : Prop :=
  ∀ s ∈ ss, lookupA s.annotations LabelDeploymentName = some instName →
    ∃ lp, env.parseLink s.annotations = .ok lp

theorem declCount_cons (env : LinkEnv) (instName p : String) (s : Secret) (rest : List Secret) :
    declCount env instName p (s :: rest) =
      (if declaresB env instName p s = true then 1 else 0) + declCount env instName p rest := by
  by_cases h : declaresB env instName p s = true
  · simp [declCount, List.filter_cons, h, Nat.add_comm]
  · simp [declCount, List.filter_cons, h]

theorem declCount_le_cons (env : LinkEnv) (instName p : String) (s : Secret) (rest : List Secret) :
    declCount env instName p rest ≤ declCount env instName p (s :: rest) := by
  rw [declCount_cons]
  exact Nat.le_add_left _ _

theorem declaresB_of_parse (env : LinkEnv) (instName : String) (s : Secret) (lp : LinkProvider)
    (hdn : lookupA s.annotations LabelDeploymentName = some instName)
    (hp : env.parseLink s.annotations = .ok lp) :
    declaresB env instName lp.name s = true := by
  simp [declaresB, hdn, hp]

theorem declaresB_false_of_name (env : LinkEnv) (instName p : String) (s : Secret)
    (lp : LinkProvider) (hp : env.parseLink s.annotations = .ok lp) (hne : lp.name ≠ p) :
    declaresB env instName p s = false := by
  unfold declaresB
  cases hdn : lookupA s.annotations LabelDeploymentName with
  | none => rfl
  | some dn =>
    by_cases hd : dn = instName
    · simp [hd, hp, hne]
    · simp [hd]

theorem declaresB_false_of_skip (env : LinkEnv) (instName p dn : String) (s : Secret)
    (hdn : lookupA s.annotations LabelDeploymentName = some dn) (hd : dn ≠ instName) :
    declaresB env instName p s = false := by
  simp [declaresB, hdn, hd]

theorem declaresB_false_of_unannotated (env : LinkEnv) (instName p : String) (s : Secret)
    (hdn : lookupA s.annotations LabelDeploymentName = none) :
    declaresB env instName p s = false := by
  simp [declaresB, hdn]

theorem processSecrets_error_form (env : LinkEnv) (instName : String) (ss : List Secret) :
    ∀ li ql mp e, allParseOk env instName ss →
    processSecrets env instName ss li ql mp = .error e →
    ∃ q, e = "duplicated secrets of provider: " ++ q ∧
      ((lookupA mp q = some true ∧ 1 ≤ declCount env instName q ss) ∨
       (lookupA mp q = some false ∧ 2 ≤ declCount env instName q ss)) := by
  induction ss with
  | nil => intro li ql mp e _ h; simp [processSecrets] at h
  | cons s rest ih =>
    intro li ql mp e hap h
    have haprest : allParseOk env instName rest := fun s2 h2 => hap s2 (List.mem_cons_of_mem _ h2)
    simp only [processSecrets] at h
    split at h
    · next dn hdn =>
        split at h
        · next hd =>
            split at h
            · next e2 hp =>
                rw [hd] at hdn
                obtain ⟨lp, hlp⟩ := hap s (List.mem_cons_self _ _) hdn
                rw [hlp] at hp
                exact absurd hp (by simp)
            · next lp hp =>
              rw [hd] at hdn
              split at h
              · next dup hlk =>
                  split at h
                  · next hdup =>
                      have hlkt : lookupA mp lp.name = some true := by rw [hlk, hdup]
                      refine ⟨lp.name, by simpa using h.symm, Or.inl ⟨hlkt, ?_⟩⟩
                      rw [declCount_cons, if_pos (declaresB_of_parse env instName s lp hdn hp)]
                      exact Nat.le_add_right 1 _
                  · next hdup =>
                      have hdupf : dup = false := by
                        cases dup
                        · rfl
                        · exact absurd rfl hdup
                      subst hdupf
                      obtain ⟨q, hq, hcase⟩ := ih _ _ _ e haprest h
                      refine ⟨q, hq, ?_⟩
                      by_cases hqn : q = lp.name
                      · subst hqn
                        right
                        refine ⟨hlk, ?_⟩
                        rw [declCount_cons, if_pos (declaresB_of_parse env instName s lp hdn hp)]
                        rcases hcase with ⟨_, hc⟩ | ⟨hl, _⟩
                        · exact Nat.add_le_add_left hc 1
                        · rw [lookupA_insertA_self] at hl
                          exact absurd hl (by simp)
                      · have hlq : lookupA (insertA mp lp.name true) q = lookupA mp q :=
                          lookupA_insertA_ne mp lp.name q true hqn
                        rcases hcase with ⟨hl, hc⟩ | ⟨hl, hc⟩
                        · exact Or.inl ⟨hlq ▸ hl, le_trans hc (declCount_le_cons _ _ _ _ _)⟩
                        · exact Or.inr ⟨hlq ▸ hl, le_trans hc (declCount_le_cons _ _ _ _ _)⟩
              · next hlk =>
                  obtain ⟨q, hq, hcase⟩ := ih _ _ _ e haprest h
                  refine ⟨q, hq, ?_⟩
                  rcases hcase with ⟨hl, hc⟩ | ⟨hl, hc⟩
                  · exact Or.inl ⟨hl, le_trans hc (declCount_le_cons _ _ _ _ _)⟩
                  · exact Or.inr ⟨hl, le_trans hc (declCount_le_cons _ _ _ _ _)⟩
        · next hd =>
            obtain ⟨q, hq, hcase⟩ := ih _ _ _ e haprest h
            refine ⟨q, hq, ?_⟩
            rcases hcase with ⟨hl, hc⟩ | ⟨hl, hc⟩
            · exact Or.inl ⟨hl, le_trans hc (declCount_le_cons _ _ _ _ _)⟩
            · exact Or.inr ⟨hl, le_trans hc (declCount_le_cons _ _ _ _ _)⟩
    · next hdn =>
        obtain ⟨q, hq, hcase⟩ := ih _ _ _ e haprest h
        refine ⟨q, hq, ?_⟩
        rcases hcase with ⟨hl, hc⟩ | ⟨hl, hc⟩
        · exact Or.inl ⟨hl, le_trans hc (declCount_le_cons _ _ _ _ _)⟩
        · exact Or.inr ⟨hl, le_trans hc (declCount_le_cons _ _ _ _ _)⟩

theorem processSecrets_dup_seen (env : LinkEnv) (instName : String) (ss : List Secret) :
    ∀ li ql mp p, lookupA mp p = some true → 1 ≤ declCount env instName p ss →
    ∃ e, processSecrets env instName ss li ql mp = .error e := by
  induction ss with
  | nil => intro li ql mp p _ hc; simp [declCount] at hc
  | cons s rest ih =>
    intro li ql mp p hl hc
    cases hdn : lookupA s.annotations LabelDeploymentName with
    | none =>
      have hc2 : 1 ≤ declCount env instName p rest := by
        rw [declCount_cons, declaresB_false_of_unannotated env instName p s hdn] at hc
        simpa using hc
      simp only [processSecrets, hdn]
      exact ih li ql mp p hl hc2
    | some dn =>
      by_cases hd : dn = instName
      · have hdn2 : lookupA s.annotations LabelDeploymentName = some instName := by
          rw [hdn, hd]
        simp only [processSecrets, hdn]
        rw [if_pos hd]
        cases hp : env.parseLink s.annotations with
        | error e2 => exact ⟨_, rfl⟩
        | ok lp =>
          simp only []
          cases hlk2 : lookupA mp lp.name with
          | none =>
            have hne : lp.name ≠ p := fun h2 => by
              rw [h2, hl] at hlk2; exact absurd hlk2 (by simp)
            have hc2 : 1 ≤ declCount env instName p rest := by
              rw [declCount_cons, declaresB_false_of_name env instName p s lp hp hne] at hc
              simpa using hc
            exact ih li ql mp p hl hc2
          | some dup =>
            simp only []
            cases dup with
            | true => exact ⟨_, rfl⟩
            | false =>
              have hne : lp.name ≠ p := fun h2 => by
                rw [h2, hl] at hlk2; exact absurd hlk2 (by simp)
              have hc2 : 1 ≤ declCount env instName p rest := by
                rw [declCount_cons, declaresB_false_of_name env instName p s lp hp hne] at hc
                simpa using hc
              have hl2 : lookupA (insertA mp lp.name true) p = some true := by
                rw [lookupA_insertA_ne mp lp.name p true (fun h2 => hne h2.symm), hl]
              exact ih _ _ _ p hl2 hc2
      · have hc2 : 1 ≤ declCount env instName p rest := by
          rw [declCount_cons, declaresB_false_of_skip env instName p dn s hdn hd] at hc
          simpa using hc
        simp only [processSecrets, hdn]
        rw [if_neg hd]
        exact ih li ql mp p hl hc2

theorem processSecrets_dup_errors (env : LinkEnv) (instName : String) (ss : List Secret) :
    ∀ li ql mp p, lookupA mp p = some false → 2 ≤ declCount env instName p ss →
    ∃ e, processSecrets env instName ss li ql mp = .error e := by
  induction ss with
  | nil => intro li ql mp p _ hc; simp [declCount] at hc
  | cons s rest ih =>
    intro li ql mp p hl hc
    cases hdn : lookupA s.annotations LabelDeploymentName with
    | none =>
      have hc2 : 2 ≤ declCount env instName p rest := by
        rw [declCount_cons, declaresB_false_of_unannotated env instName p s hdn] at hc
        simpa using hc
      simp only [processSecrets, hdn]
      exact ih li ql mp p hl hc2
    | some dn =>
      by_cases hd : dn = instName
      · have hdn2 : lookupA s.annotations LabelDeploymentName = some instName := by
          rw [hdn, hd]
        simp only [processSecrets, hdn]
        rw [if_pos hd]
        cases hp : env.parseLink s.annotations with
        | error e2 => exact ⟨_, rfl⟩
        | ok lp =>
          simp only []
          cases hlk2 : lookupA mp lp.name with
          | none =>
            have hne : lp.name ≠ p := fun h2 => by
              rw [h2, hl] at hlk2; exact absurd hlk2 (by simp)
            have hc2 : 2 ≤ declCount env instName p rest := by
              rw [declCount_cons, declaresB_false_of_name env instName p s lp hp hne] at hc
              simpa using hc
            exact ih li ql mp p hl hc2
          | some dup =>
            simp only []
            cases dup with
            | true => exact ⟨_, rfl⟩
            | false =>
              by_cases hne : lp.name = p
              · subst hne
                have hc2 : 1 ≤ declCount env instName lp.name rest := by
                  rw [declCount_cons,
                    if_pos (declaresB_of_parse env instName s lp hdn2 hp)] at hc
                  omega
                have hl2 : lookupA (insertA mp lp.name true) lp.name = some true :=
                  lookupA_insertA_self mp lp.name true
                exact processSecrets_dup_seen env instName rest _ _ _ lp.name hl2 hc2
              · have hc2 : 2 ≤ declCount env instName p rest := by
                  rw [declCount_cons, declaresB_false_of_name env instName p s lp hp hne] at hc
                  simpa using hc
                have hl2 : lookupA (insertA mp lp.name true) p = some false := by
                  rw [lookupA_insertA_ne mp lp.name p true (fun h2 => hne h2.symm), hl]
                exact ih _ _ _ p hl2 hc2
      · have hc2 : 2 ≤ declCount env instName p rest := by
          rw [declCount_cons, declaresB_false_of_skip env instName p dn s hdn hd] at hc
          simpa using hc
        simp only [processSecrets, hdn]
        rw [if_neg hd]
        exact ih li ql mp p hl hc2

theorem processSecrets_parse_failure (env : LinkEnv) (instName : String) (ss : List Secret) :
    ∀ li ql mp (s : Secret) pe, s ∈ ss →
    lookupA s.annotations LabelDeploymentName = some instName →
    env.parseLink s.annotations = .error pe →
    ∃ e, processSecrets env instName ss li ql mp = .error e := by
  induction ss with
  | nil => intro li ql mp s pe hmem _ _; simp at hmem
  | cons s0 rest ih =>
    intro li ql mp s pe hmem hdn hp
    rcases List.mem_cons.mp hmem with rfl | hmem2
    · simp only [processSecrets, hdn]
      rw [if_pos trivial, hp]
      exact ⟨_, rfl⟩
    · cases hdn0 : lookupA s0.annotations LabelDeploymentName with
      | none =>
        simp only [processSecrets, hdn0]
        exact ih li ql mp s pe hmem2 hdn hp
      | some dn0 =>
        by_cases hd0 : dn0 = instName
        · simp only [processSecrets, hdn0]
          rw [if_pos hd0]
          cases hp0 : env.parseLink s0.annotations with
          | error e0 => exact ⟨_, rfl⟩
          | ok lp0 =>
            simp only []
            cases hlk0 : lookupA mp lp0.name with
            | none => exact ih li ql mp s pe hmem2 hdn hp
            | some dup =>
              simp only []
              cases dup with
              | true => exact ⟨_, rfl⟩
              | false => exact ih _ _ _ s pe hmem2 hdn hp
        · simp only [processSecrets, hdn0]
          rw [if_neg hd0]
          exact ih li ql mp s pe hmem2 hdn hp

/-- Whether a service is annotated for the deployment and claims provider
name `p` via the provider-name annotation. -/
def claimsB (name p : String) (svc : Service) : Bool :=
  match lookupA svc.annotations LabelDeploymentName with
  | some dn =>
    if dn = name then
      match lookupA svc.annotations AnnotationLinkProviderService with
      | some pn => decide (pn = p)
      | none => false
    else false
  | none => false

/-- Number of services in the listing claiming provider name `p` for the
deployment. -/
def claimCount (name p : String) (svcs : List Service) : Nat :=
  (svcs.filter (claimsB name p)).length

theorem claimCount_cons (name p : String) (svc : Service) (rest : List Service) :
    claimCount name p (svc :: rest) =
      (if claimsB name p svc = true then 1 else 0) + claimCount name p rest := by
  by_cases h : claimsB name p svc = true
  · simp [claimCount, List.filter_cons, h, Nat.add_comm]
  · simp [claimCount, List.filter_cons, h]

theorem claimsB_true_of (name : String) (svc : Service) (pn : String)
    (hdn : lookupA svc.annotations LabelDeploymentName = some name)
    (hpn : lookupA svc.annotations AnnotationLinkProviderService = some pn) :
    claimsB name pn svc = true := by
  simp [claimsB, hdn, hpn]

theorem claimsB_false_cases (name p : String) (svc : Service) :
    claimsB name p svc = false ∨
      (lookupA svc.annotations LabelDeploymentName = some name ∧
       lookupA svc.annotations AnnotationLinkProviderService = some p) := by
  unfold claimsB
  cases hdn : lookupA svc.annotations LabelDeploymentName with
  | none => exact Or.inl rfl
  | some dn =>
    by_cases hd : dn = name
    · cases hpn : lookupA svc.annotations AnnotationLinkProviderService with
      | none => simp [hd]
      | some pn =>
        by_cases hp : pn = p
        · exact Or.inr ⟨by rw [hd], by rw [hp]⟩
        · simp [hd, hp]
    · simp [hd]

theorem lookupA_append_some {α : Type} (l1 l2 : List (String × α)) (k : String) (v : α)
    (h : lookupA l1 k = some v) : lookupA (l1 ++ l2) k = some v := by
  induction l1 with
  | nil => simp [lookupA] at h
  | cons hd tl ih =>
    obtain ⟨k2, v2⟩ := hd
    by_cases h2 : k2 = k
    · simp only [lookupA, if_pos h2] at h
      simp [lookupA, h2, h]
    · simp only [lookupA, if_neg h2] at h
      simp [lookupA, h2, ih h]

theorem lookupA_append_none {α : Type} (l1 l2 : List (String × α)) (k : String)
    (h : lookupA l1 k = none) : lookupA (l1 ++ l2) k = lookupA l2 k := by
  induction l1 with
  | nil => simp [lookupA]
  | cons hd tl ih =>
    obtain ⟨k2, v2⟩ := hd
    by_cases h2 : k2 = k
    · simp only [lookupA, if_pos h2] at h
      exact absurd h (by simp)
    · simp only [lookupA, if_neg h2] at h
      simp [lookupA, h2, ih h]

theorem lookupA_singleton_self {α : Type} (k : String) (v : α) :
    lookupA [(k, v)] k = some v := by
  simp [lookupA]

theorem lookupA_singleton_ne {α : Type} (k k2 : String) (v : α) (h : ¬ k = k2) :
    lookupA [(k, v)] k2 = none := by
  simp [lookupA, h]

theorem getServiceRecords_ok_bound (domain ns name : String) (svcs : List Service) :
    ∀ acc out p, getServiceRecords domain ns name svcs acc = .ok out →
    claimCount name p svcs +
      (match lookupA acc p with | some _ => 1 | none => 0) ≤ 1 := by
  induction svcs with
  | nil =>
    intro acc out p _
    cases hl : lookupA acc p <;> simp [claimCount]
  | cons svc rest ih =>
    intro acc out p h
    simp only [getServiceRecords] at h
    split at h
    · next dn hdn =>
        split at h
        · next hd =>
            split at h
            · next pn hpn =>
                split at h
                · next r hr => exact absurd h (by simp)
                · next hr =>
                    rw [hd] at hdn
                    by_cases hq : pn = p
                    · subst hq
                      have h2 := ih _ out pn h
                      rw [lookupA_append_none _ _ _ hr, lookupA_singleton_self] at h2
                      have h2b : claimCount name pn rest + 1 ≤ 1 := by simpa using h2
                      rw [claimCount_cons, if_pos (claimsB_true_of name svc pn hdn hpn), hr]
                      simpa using h2b
                    · have h2 := ih _ out p h
                      have hcb : claimsB name p svc = false := by
                        rcases claimsB_false_cases name p svc with h3 | ⟨_, h4⟩
                        · exact h3
                        · rw [h4] at hpn
                          exact absurd ((Option.some.injEq _ _).mp hpn).symm hq
                      rw [claimCount_cons, hcb]
                      cases hap : lookupA acc p with
                      | some r2 =>
                        rw [lookupA_append_some _ _ _ _ hap] at h2
                        simpa using h2
                      | none =>
                        rw [lookupA_append_none _ _ _ hap, lookupA_singleton_ne _ _ _ hq] at h2
                        simpa using h2
            · next hpn =>
                have h2 := ih _ out p h
                have hcb : claimsB name p svc = false := by
                  rcases claimsB_false_cases name p svc with h3 | ⟨_, h4⟩
                  · exact h3
                  · rw [h4] at hpn; exact absurd hpn (by simp)
                rw [claimCount_cons, hcb]
                simpa using h2
        · next hd =>
            have h2 := ih _ out p h
            have hcb : claimsB name p svc = false := by
              rcases claimsB_false_cases name p svc with h3 | ⟨h4, _⟩
              · exact h3
              · rw [h4] at hdn
                exact absurd ((Option.some.injEq _ _).mp hdn).symm hd
            rw [claimCount_cons, hcb]
            simpa using h2
    · next hdn =>
        have h2 := ih _ out p h
        have hcb : claimsB name p svc = false := by
          rcases claimsB_false_cases name p svc with h3 | ⟨h4, _⟩
          · exact h3
          · rw [h4] at hdn; exact absurd hdn (by simp)
        rw [claimCount_cons, hcb]
        simpa using h2

theorem getServiceRecords_error_form (domain ns name : String) (svcs : List Service) :
    ∀ acc e, getServiceRecords domain ns name svcs acc = .error e →
    ∃ q, e = "duplicated services of provider: " ++ q ∧
      ((lookupA acc q ≠ none ∧ 1 ≤ claimCount name q svcs) ∨
       (lookupA acc q = none ∧ 2 ≤ claimCount name q svcs)) := by
  induction svcs with
  | nil => intro acc e h; simp [getServiceRecords] at h
  | cons svc rest ih =>
    intro acc e h
    have hmono : ∀ q, claimCount name q rest ≤ claimCount name q (svc :: rest) := by
      intro q
      rw [claimCount_cons]
      exact Nat.le_add_left _ _
    simp only [getServiceRecords] at h
    split at h
    · next dn hdn =>
        split at h
        · next hd =>
            split at h
            · next pn hpn =>
                split at h
                · next r hr =>
                    rw [hd] at hdn
                    refine ⟨pn, by simpa using h.symm, Or.inl ⟨by rw [hr]; simp, ?_⟩⟩
                    rw [claimCount_cons, if_pos (claimsB_true_of name svc pn hdn hpn)]
                    exact Nat.le_add_right 1 _
                · next hr =>
                    rw [hd] at hdn
                    obtain ⟨q, hq, hcase⟩ := ih _ e h
                    refine ⟨q, hq, ?_⟩
                    by_cases hqp : q = pn
                    · subst hqp
                      right
                      refine ⟨hr, ?_⟩
                      rw [claimCount_cons, if_pos (claimsB_true_of name svc q hdn hpn)]
                      rcases hcase with ⟨_, hc⟩ | ⟨hl, _⟩
                      · exact Nat.add_le_add_left hc 1
                      · rw [lookupA_append_none _ _ _ hr, lookupA_singleton_self] at hl
                        exact absurd hl (by simp)
                    · rcases hcase with ⟨hl, hc⟩ | ⟨hl, hc⟩
                      · left
                        refine ⟨?_, le_trans hc (hmono q)⟩
                        cases hap : lookupA acc q with
                        | some r2 => simp
                        | none =>
                          rw [lookupA_append_none _ _ _ hap,
                            lookupA_singleton_ne _ _ _ (fun h2 => hqp h2.symm)] at hl
                          exact absurd rfl hl
                      · right
                        refine ⟨?_, le_trans hc (hmono q)⟩
                        cases hap : lookupA acc q with
                        | some r2 =>
                          rw [lookupA_append_some _ _ _ _ hap] at hl
                          exact absurd hl (by simp)
                        | none => rfl
            · next hpn =>
                obtain ⟨q, hq, hcase⟩ := ih _ e h
                exact ⟨q, hq, by
                  rcases hcase with ⟨hl, hc⟩ | ⟨hl, hc⟩
                  · exact Or.inl ⟨hl, le_trans hc (hmono q)⟩
                  · exact Or.inr ⟨hl, le_trans hc (hmono q)⟩⟩
        · next hd =>
            obtain ⟨q, hq, hcase⟩ := ih _ e h
            exact ⟨q, hq, by
              rcases hcase with ⟨hl, hc⟩ | ⟨hl, hc⟩
              · exact Or.inl ⟨hl, le_trans hc (hmono q)⟩
              · exact Or.inr ⟨hl, le_trans hc (hmono q)⟩⟩
    · next hdn =>
        obtain ⟨q, hq, hcase⟩ := ih _ e h
        exact ⟨q, hq, by
          rcases hcase with ⟨hl, hc⟩ | ⟨hl, hc⟩
          · exact Or.inl ⟨hl, le_trans hc (hmono q)⟩
          · exact Or.inr ⟨hl, le_trans hc (hmono q)⟩⟩

theorem resolveAll_keys (env : LinkEnv) (ns instName : String)
    (sr : List (String × ServiceRecord)) (ql : List (String × QuarksLink)) :
    ∀ ql2, resolveAll env ns instName sr ql = .ok ql2 →
    ql2.map Prod.fst = ql.map Prod.fst := by
  induction ql with
  | nil =>
    intro ql2 h
    obtain rfl : ([] : List (String × QuarksLink)) = ql2 := by simpa [resolveAll] using h
    rfl
  | cons hd tl ih =>
    obtain ⟨n, q⟩ := hd
    intro ql2 h
    simp only [resolveAll] at h
    split at h
    · exact absurd h (by simp)
    · next q2 hq2 =>
        split at h
        · exact absurd h (by simp)
        · next rest2 hrest =>
            obtain rfl : (n, q2) :: rest2 = ql2 := by simpa using h
            simp [ih rest2 hrest]

theorem resolveAll_preserves_unrecorded (env : LinkEnv) (ns instName : String)
    (sr : List (String × ServiceRecord)) (ql : List (String × QuarksLink)) :
    ∀ ql2 n q, (n, q) ∈ ql → lookupA sr n = none →
    resolveAll env ns instName sr ql = .ok ql2 → (n, q) ∈ ql2 := by
  induction ql with
  | nil => intro ql2 n q hmem _ _; simp at hmem
  | cons hd tl ih =>
    obtain ⟨n0, q0⟩ := hd
    intro ql2 n q hmem hsr h
    simp only [resolveAll] at h
    split at h
    · exact absurd h (by simp)
    · next q2 hq2 =>
        split at h
        · exact absurd h (by simp)
        · next rest2 hrest =>
            obtain rfl : (n0, q2) :: rest2 = ql2 := by simpa using h
            rcases List.mem_cons.mp hmem with heq | hmem2
            · have hn : n0 = n := congrArg Prod.fst heq.symm
              have hq0 : q0 = q := congrArg Prod.snd heq.symm
              rw [hn, hq0, resolveEntry, hsr] at hq2
              obtain rfl : q = q2 := by simpa using hq2
              rw [hn]
              exact List.mem_cons_self _ _
            · exact List.mem_cons_of_mem _ (ih rest2 n q hmem2 hsr hrest)

theorem buildInstances_ok (qName : String) (ps : List Pod) :
    ∀ start, (∀ p ∈ ps, ¬ p.podIP = "") →
    ∃ l, buildInstances qName ps start = .ok l ∧ l.length = ps.length ∧
      ∀ i (hi : i < l.length) (hp2 : i < ps.length),
        l.get ⟨i, hi⟩ = ⟨qName, (ps.get ⟨i, hp2⟩).uid, start + i,
          (ps.get ⟨i, hp2⟩).podIP, decide (start + i = 0)⟩ := by
  induction ps with
  | nil =>
    intro start _
    exact ⟨[], rfl, rfl, fun i hi _ => absurd hi (by simp)⟩
  | cons p rest ih =>
    intro start hip
    obtain ⟨l2, hok, hlen, hget⟩ := ih (start + 1) (fun p2 h2 => hip p2 (List.mem_cons_of_mem _ h2))
    refine ⟨⟨qName, p.uid, start, p.podIP, decide (start = 0)⟩ :: l2, ?_, by simpa using hlen, ?_⟩
    · simp only [buildInstances, if_neg (hip p (List.mem_cons_self _ _)), hok]
    · intro i hi hp2
      cases i with
      | zero => simp [List.get]
      | succ i2 =>
        have hi2 : i2 < l2.length := by simpa using hi
        have hp3 : i2 < rest.length := by simpa using hp2
        have hrw : start + 1 + i2 = start + (i2 + 1) := by omega
        simp only [List.get_cons_succ]
        rw [hget i2 hi2 hp3, hrw]

theorem buildInstances_err (qName : String) (ps : List Pod) :
    ∀ start k (hk : k < ps.length), (ps.get ⟨k, hk⟩).podIP = "" →
    (∀ j (hj : j < ps.length), j < k → ¬ (ps.get ⟨j, hj⟩).podIP = "") →
    buildInstances qName ps start = .error ("empty ip of kube native component: " ++
      (ps.get ⟨k, hk⟩).ns ++ "/" ++ (ps.get ⟨k, hk⟩).name) := by
  induction ps with
  | nil => intro start k hk _ _; exact absurd hk (by simp)
  | cons p rest ih =>
    intro start k hk hempty hfirst
    cases k with
    | zero =>
      simp only [List.get] at hempty ⊢
      simp only [buildInstances, if_pos hempty]
    | succ k2 =>
      have hp0 : ¬ p.podIP = "" := by
        have := hfirst 0 (by simp) (Nat.succ_pos k2)
        simpa [List.get] using this
      have hk2 : k2 < rest.length := by simpa using hk
      have hrec := ih (start + 1) k2 hk2 (by simpa [List.get_cons_succ] using hempty)
        (fun j hj hjk => by
          have := hfirst (j + 1) (by simpa using Nat.succ_lt_succ hj) (Nat.succ_lt_succ hjk)
          simpa [List.get_cons_succ] using this)
      simp only [buildInstances, if_neg hp0, hrec]
      simp [List.get_cons_succ]

theorem injectLinks_nil (m : Manifest) : injectLinks m [] = m := by
  simp [injectLinks]

theorem injectLinks_lookup (m : Manifest) (ql : List (String × QuarksLink)) (h : ql ≠ []) :
    ∃ props, (injectLinks m ql).properties = some props ∧
      lookupA props "quarks_links" = some (PropVal.links ql) := by
  have hlen : ql.length ≠ 0 := fun h2 => h (List.length_eq_zero.mp h2)
  simp only [injectLinks, if_pos hlen]
  exact ⟨_, rfl, lookupA_insertA_self _ _ _⟩

theorem hasProp_injectLinks_iff (m : Manifest) (ql : List (String × QuarksLink))
    (h0 : hasProp m "quarks_links" = false) :
    (hasProp (injectLinks m ql) "quarks_links" = true ↔ ql ≠ []) := by
  constructor
  · intro h
    intro hnil
    rw [hnil, injectLinks_nil] at h
    rw [h0] at h
    exact absurd h (by simp)
  · intro h
    obtain ⟨props, hprops, hlk⟩ := injectLinks_lookup m ql h
    simp [hasProp, hprops, hlk]

theorem unmatched_mem_iff (mp : List (String × Bool)) (n : String) :
    n ∈ unmatched mp ↔ (n, false) ∈ mp := by
  constructor
  · intro h
    obtain ⟨p, hp, he⟩ := List.mem_map.mp h
    obtain ⟨hpm, hpf⟩ := List.mem_filter.mp hp
    have h2 : p.2 = false := by simpa using hpf
    have h3 : p = (n, false) := by
      obtain ⟨a, b⟩ := p
      simp only at he h2
      rw [he, h2]
    exact h3 ▸ hpm
  · intro h
    exact List.mem_map.mpr ⟨(n, false), List.mem_filter.mpr ⟨h, by simp⟩, rfl⟩

theorem map_fst_const_false (l : List String) :
    (l.map (fun n => (n, false))).map Prod.fst = l := by
  induction l with
  | nil => rfl
  | cons hd tl ih => simp [ih]

theorem listLinkInfos_fast_path (env : LinkEnv) (ns instName : String) (manifest : Manifest)
    (h : manifest.missingProviders = []) :
    listLinkInfos env ns instName manifest = .ok ([], manifest) := by
  simp only [listLinkInfos, linkPass, h]
  simp [unmatched, injectLinks_nil]

theorem listLinkInfos_secrets_err (env : LinkEnv) (ns instName : String) (manifest : Manifest)
    (ss : List Secret) (svcs : List Service) (e : String)
    (hmiss : manifest.missingProviders.length ≠ 0)
    (h1 : env.secrets = .ok ss) (h2 : env.services = .ok svcs)
    (hps : processSecrets env instName ss [] []
      (manifest.missingProviders.map (fun n => (n, false))) = .error e) :
    listLinkInfos env ns instName manifest = .error e := by
  simp only [listLinkInfos, linkPass, if_pos hmiss, h1, h2, hps]

theorem listLinkInfos_services_err (env : LinkEnv) (ns instName : String) (manifest : Manifest)
    (ss : List Secret) (svcs : List Service) (li : List LinkInfo)
    (ql : List (String × QuarksLink)) (mp : List (String × Bool)) (e : String)
    (hmiss : manifest.missingProviders.length ≠ 0)
    (h1 : env.secrets = .ok ss) (h2 : env.services = .ok svcs)
    (hps : processSecrets env instName ss [] []
      (manifest.missingProviders.map (fun n => (n, false))) = .ok (li, ql, mp))
    (hsr : getServiceRecords env.clusterDomain ns instName svcs [] = .error e) :
    listLinkInfos env ns instName manifest =
      .error ("failed to get link services for " ++ instName ++ ": " ++ e) := by
  simp only [listLinkInfos, linkPass, if_pos hmiss, h1, h2, hps, hsr]

theorem listLinkInfos_ok_path (env : LinkEnv) (ns instName : String) (manifest : Manifest)
    (ss : List Secret) (svcs : List Service) (li : List LinkInfo)
    (ql ql2 : List (String × QuarksLink)) (mp : List (String × Bool))
    (sr : List (String × ServiceRecord))
    (hmiss : manifest.missingProviders.length ≠ 0)
    (h1 : env.secrets = .ok ss) (h2 : env.services = .ok svcs)
    (hps : processSecrets env instName ss [] []
      (manifest.missingProviders.map (fun n => (n, false))) = .ok (li, ql, mp))
    (hsr : getServiceRecords env.clusterDomain ns instName svcs [] = .ok sr)
    (hra : resolveAll env ns instName sr ql = .ok ql2)
    (hun : unmatched mp = []) :
    listLinkInfos env ns instName manifest = .ok (li, injectLinks manifest ql2) := by
  simp only [listLinkInfos, linkPass, if_pos hmiss, h1, h2, hps, hsr, hra, hun]
  simp

theorem listLinkInfos_missing_err (env : LinkEnv) (ns instName : String) (manifest : Manifest)
    (ss : List Secret) (svcs : List Service) (li : List LinkInfo)
    (ql ql2 : List (String × QuarksLink)) (mp : List (String × Bool))
    (sr : List (String × ServiceRecord))
    (hmiss : manifest.missingProviders.length ≠ 0)
    (h1 : env.secrets = .ok ss) (h2 : env.services = .ok svcs)
    (hps : processSecrets env instName ss [] []
      (manifest.missingProviders.map (fun n => (n, false))) = .ok (li, ql, mp))
    (hsr : getServiceRecords env.clusterDomain ns instName svcs [] = .ok sr)
    (hra : resolveAll env ns instName sr ql = .ok ql2)
    (hun : unmatched mp ≠ []) :
    listLinkInfos env ns instName manifest =
      .error ("missing link secrets for providers: " ++
        String.intercalate ", " (unmatched mp)) := by
  have hlen : (unmatched mp).length ≠ 0 := fun h2 => hun (List.length_eq_zero.mp h2)
  simp only [listLinkInfos, linkPass, if_pos hmiss, h1, h2, hps, hsr, hra, if_pos hlen]

/-- A concrete annotation parser for witnesses: the provider name comes
from a `link-provider` annotation, the type from `link-type` (defaulting to
the empty string), and a secret without `link-provider` fails to parse. -/
def parseByAnnotation (anns : List (String × String)) : Except String LinkProvider :=
  match lookupA anns "link-provider" with
  | some n => .ok ⟨n, (lookupA anns "link-type").getD ""⟩
  | none => .error "no link JSON annotation"

def secretProviderA : Secret :=
  ⟨"nats-secret", [(LabelDeploymentName, "mydep"), ("link-provider", "A"), ("link-type", "nats")]⟩

def envC3 : LinkEnv :=
  ⟨.ok [secretProviderA], .ok [], fun _ _ => .ok [], parseByAnnotation, "cluster.local"⟩

def mC3 : Manifest := ⟨none, [], ["A", "B", "C"]⟩

def liC3 : List LinkInfo := [⟨"nats-secret", "A", "nats"⟩]

def qlC3 : List (String × QuarksLink) := [("nats-secret", ⟨"nats", "", []⟩)]

def mpC3 : List (String × Bool) := [("A", true), ("B", false), ("C", false)]

/-- C3: if after processing all secrets some names of the missing-provider
set remain unmatched, `listLinkInfos` fails with a single error listing
exactly the still-unmatched names comma-joined (prefixed
`missing link secrets for providers:`); matched names do not appear in the
list, and the resolver does not fail on the first unmatched name alone. -/
theorem c3_missing_provider_aggregation
    (env : LinkEnv) (ns instName : String) (manifest : Manifest)
    (ss : List Secret) (svcs : List Service) (li : List LinkInfo)
    (ql ql2 : List (String × QuarksLink)) (mp : List (String × Bool))
    (sr : List (String × ServiceRecord))
    (hnd : manifest.missingProviders.Nodup)
    (h1 : env.secrets = .ok ss) (h2 : env.services = .ok svcs)
    (hps : processSecrets env instName ss [] []
      (manifest.missingProviders.map (fun n => (n, false))) = .ok (li, ql, mp))
    (hsr : getServiceRecords env.clusterDomain ns instName svcs [] = .ok sr)
    (hra : resolveAll env ns instName sr ql = .ok ql2)
    (hun : unmatched mp ≠ []) :
    listLinkInfos env ns instName manifest =
      .error ("missing link secrets for providers: " ++
        String.intercalate ", " (unmatched mp)) ∧
    (∀ n, n ∈ unmatched mp ↔ (n, false) ∈ mp) ∧
    (∀ n, (n, true) ∈ mp → n ∉ unmatched mp) := by
  have hkeys : mp.map Prod.fst = manifest.missingProviders := by
    have h5 := (processSecrets_invariants env instName ss [] [] _ li ql mp hps).2.1
    rw [h5, map_fst_const_false]
  have hmpne : mp ≠ [] := by
    intro h6
    rw [h6] at hun
    exact hun rfl
  have hmiss : manifest.missingProviders.length ≠ 0 := by
    rw [← hkeys, List.length_map]
    exact fun h7 => hmpne (List.length_eq_zero.mp h7)
  refine ⟨listLinkInfos_missing_err env ns instName manifest ss svcs li ql ql2 mp sr
    hmiss h1 h2 hps hsr hra hun, fun n => unmatched_mem_iff mp n, ?_⟩
  intro n hnt hmem
  have hnf : (n, false) ∈ mp := (unmatched_mem_iff mp n).mp hmem
  have hndk : (mp.map Prod.fst).Nodup := by rw [hkeys]; exact hnd
  exact absurd (nodup_keys_val_eq mp hndk n true false hnt hnf) (by simp)

/-- C3 witness: missing-provider set `A, B, C` with only `A` resolvable
yields the single aggregated failure listing `B` and `C` but not `A`. -/
theorem c3_missing_provider_aggregation_witness :
    listLinkInfos envC3 "ns1" "mydep" mC3 =
      .error ("missing link secrets for providers: " ++
        String.intercalate ", " (unmatched mpC3)) ∧
    "B" ∈ unmatched mpC3 ∧ "C" ∈ unmatched mpC3 ∧ "A" ∉ unmatched mpC3 := by
  have h := c3_missing_provider_aggregation envC3 "ns1" "mydep" mC3
    [secretProviderA] [] liC3 qlC3 qlC3 mpC3 []
    (by decide) rfl rfl (by rfl) rfl (by rfl) (by decide)
  exact ⟨h.1, (h.2.1 "B").mpr (by decide), (h.2.1 "C").mpr (by decide),
    h.2.2 "A" (by decide)⟩

def secretNoType : Secret :=
  ⟨"plain-secret", [(LabelDeploymentName, "mydep"), ("link-provider", "nats")]⟩

def envC1 : LinkEnv :=
  ⟨.ok [secretNoType], .ok [], fun _ _ => .ok [], parseByAnnotation, "cluster.local"⟩

def mC1 : Manifest := ⟨none, [], ["nats"]⟩

/-- C1 counterexample: a secret resolving missing provider `nats` with an
empty provider type yields a successful pass that records one `LinkInfo`
(a link was resolved) yet leaves the `quarks_links` key absent from the
manifest properties, refuting the claimed iff. -/
theorem c1_counterexample :
    listLinkInfos envC1 "ns1" "mydep" mC1 = .ok ([⟨"plain-secret", "nats", ""⟩], mC1) ∧
    ([(⟨"plain-secret", "nats", ""⟩ : LinkInfo)] : List LinkInfo) ≠ [] ∧
    hasProp mC1 "quarks_links" = false := by
  exact ⟨rfl, by decide, rfl⟩

theorem linkPass_ql_iff (env : LinkEnv) (ns instName : String) (manifest : Manifest)
    (li0 : List LinkInfo) (ql0 : List (String × QuarksLink)) (mp0 : List (String × Bool))
    (hlp : linkPass env ns instName manifest = .ok (li0, ql0, mp0)) :
    (ql0 ≠ [] ↔ ∃ i ∈ li0, i.providerType ≠ "") := by
  simp only [linkPass] at hlp
  split at hlp
  · split at hlp
    · exact absurd hlp (by simp)
    · next ss hss =>
        split at hlp
        · exact absurd hlp (by simp)
        · next svcs hsvcs =>
            split at hlp
            · exact absurd hlp (by simp)
            · next li1 ql1 mp1 hps =>
                split at hlp
                · exact absurd hlp (by simp)
                · next sr hsr =>
                    split at hlp
                    · exact absurd hlp (by simp)
                    · next ql2 hra =>
                        obtain ⟨he1, he2, he3⟩ : li1 = li0 ∧ ql2 = ql0 ∧ mp1 = mp0 := by
                          simpa using hlp
                        rw [← he1, ← he2]
                        have hinv := processSecrets_invariants env instName ss
                          [] [] _ li1 ql1 mp1 hps
                        have hkeys := resolveAll_keys env ns instName sr ql1 ql2 hra
                        constructor
                        · intro hne
                          have hne1 : ql1 ≠ [] := by
                            intro h9
                            rw [h9] at hkeys
                            have hq2 : List.map Prod.fst ql2 = [] := by simpa using hkeys
                            exact hne (List.map_eq_nil_iff.mp hq2)
                          obtain ⟨e, he⟩ := List.exists_mem_of_ne_nil ql1 hne1
                          rcases hinv.2.2.2.1 e he with h9 | ⟨ht, _, _, j, hj, _, hjt⟩
                          · simp at h9
                          · exact ⟨j, hj, by rw [hjt]; exact ht⟩
                        · rintro ⟨i, hi, hit⟩
                          rcases hinv.2.2.2.2 i hi with h9 | h9
                          · simp at h9
                          · have h10 := h9 hit
                            rw [← hkeys] at h10
                            intro h11
                            rw [h11] at h10
                            simp at h10
  · obtain ⟨he1, he2, he3⟩ :
        ([] : List LinkInfo) = li0 ∧ ([] : List (String × QuarksLink)) = ql0 ∧
        manifest.missingProviders.map (fun n => (n, false)) = mp0 := by
      simpa using hlp
    rw [← he1, ← he2]
    simp

/-- C1 (amended): after `listLinkInfos` returns without error, if the
manifest properties did not already contain `quarks_links`, the key is
present iff at least one recorded `LinkInfo` carries a non-empty provider
type (a link resolved from a secret with an empty type does not create the
key). -/
theorem c1_quarks_links_key_iff (env : LinkEnv) (ns instName : String)
    (manifest : Manifest) (li : List LinkInfo) (m2 : Manifest)
    (h0 : hasProp manifest "quarks_links" = false)
    (h : listLinkInfos env ns instName manifest = .ok (li, m2)) :
    (hasProp m2 "quarks_links" = true ↔ ∃ i ∈ li, i.providerType ≠ "") := by
  simp only [listLinkInfos] at h
  split at h
  · exact absurd h (by simp)
  · next li0 ql0 mp0 hlp =>
      split at h
      · exact absurd h (by simp)
      · next hun =>
          obtain ⟨he1, he2⟩ : li0 = li ∧ injectLinks manifest ql0 = m2 := by simpa using h
          rw [← he2, ← he1, hasProp_injectLinks_iff manifest ql0 h0]
          exact linkPass_ql_iff env ns instName manifest li0 ql0 mp0 hlp

def mA : Manifest := ⟨none, [], ["A"]⟩

def envC1w : LinkEnv :=
  ⟨.ok [secretProviderA], .ok [], fun _ _ => .ok [], parseByAnnotation, "cluster.local"⟩

/-- C1 witness: a resolved link with a non-empty provider type does put
`quarks_links` into the manifest properties. -/
theorem c1_quarks_links_key_iff_witness :
    hasProp (injectLinks mA qlC3) "quarks_links" = true :=
  (c1_quarks_links_key_iff envC1w "ns1" "mydep" mA liC3 (injectLinks mA qlC3) rfl rfl).mpr
    ⟨⟨"nats-secret", "A", "nats"⟩, by decide, by decide⟩

def svcA1 : Service :=
  ⟨"svc1", [(LabelDeploymentName, "mydep"), (AnnotationLinkProviderService, "A")], []⟩

def svcA2 : Service :=
  ⟨"svc2", [(LabelDeploymentName, "mydep"), (AnnotationLinkProviderService, "A")], []⟩

def envC4 : LinkEnv :=
  ⟨.ok [], .ok [svcA1, svcA2], fun _ _ => .ok [], parseByAnnotation, "cluster.local"⟩

def mNoMissing : Manifest := ⟨none, [], []⟩

/-- C4 counterexample: when the manifest has no missing providers, two
services annotated for the deployment that both claim provider `A` do not
make the resolver fail: the pass succeeds without examining them. -/
theorem c4_counterexample :
    claimCount "mydep" "A" [svcA1, svcA2] = 2 ∧
    envC4.services = .ok [svcA1, svcA2] ∧
    listLinkInfos envC4 "ns1" "mydep" mNoMissing = .ok ([], mNoMissing) := by
  exact ⟨rfl, rfl, rfl⟩

/-- C4 (amended): two secrets annotated with the deployment name declaring
the same missing-provider name make the resolver fail with a duplicate
error naming a provider declared by at least two secrets (given every
annotated secret parses); and, provided the manifest has at least one
missing provider, two services annotated with the deployment name claiming
the same provider name make the resolver fail with a duplicate error
naming a provider claimed by at least two services.  It never silently
picks one of the duplicates. -/
theorem c4_duplicate_providers :
    (∀ (env : LinkEnv) (ns instName : String) (manifest : Manifest)
      (ss : List Secret) (svcs : List Service) (p : String),
      env.secrets = .ok ss → env.services = .ok svcs →
      allParseOk env instName ss →
      p ∈ manifest.missingProviders →
      2 ≤ declCount env instName p ss →
      ∃ q, listLinkInfos env ns instName manifest =
          .error ("duplicated secrets of provider: " ++ q) ∧
        2 ≤ declCount env instName q ss ∧ q ∈ manifest.missingProviders) ∧
    (∀ (env : LinkEnv) (ns instName : String) (manifest : Manifest)
      (ss : List Secret) (svcs : List Service) (li : List LinkInfo)
      (ql : List (String × QuarksLink)) (mp : List (String × Bool)) (p : String),
      env.secrets = .ok ss → env.services = .ok svcs →
      manifest.missingProviders ≠ [] →
      processSecrets env instName ss [] []
        (manifest.missingProviders.map (fun n => (n, false))) = .ok (li, ql, mp) →
      2 ≤ claimCount instName p svcs →
      ∃ q, listLinkInfos env ns instName manifest =
          .error ("failed to get link services for " ++ instName ++ ": " ++
            ("duplicated services of provider: " ++ q)) ∧
        2 ≤ claimCount instName q svcs) := by
  constructor
  · intro env ns instName manifest ss svcs p h1 h2 hap hp hc
    have hmiss : manifest.missingProviders.length ≠ 0 := by
      intro h3
      rw [List.length_eq_zero.mp h3] at hp
      simp at hp
    have hlk0 : lookupA (manifest.missingProviders.map (fun n => (n, false))) p =
        some false := by
      rw [lookupA_const_false, if_pos hp]
    obtain ⟨e, he⟩ := processSecrets_dup_errors env instName ss [] []
      (manifest.missingProviders.map (fun n => (n, false))) p hlk0 hc
    obtain ⟨q, hq, hcase⟩ := processSecrets_error_form env instName ss [] []
      (manifest.missingProviders.map (fun n => (n, false))) e hap he
    have hqm : q ∈ manifest.missingProviders ∧ 2 ≤ declCount env instName q ss := by
      rcases hcase with ⟨hl, _⟩ | ⟨hl, hc2⟩
      · rw [lookupA_const_false] at hl
        by_cases hqin : q ∈ manifest.missingProviders
        · rw [if_pos hqin] at hl
          exact absurd hl (by simp)
        · rw [if_neg hqin] at hl
          exact absurd hl (by simp)
      · rw [lookupA_const_false] at hl
        by_cases hqin : q ∈ manifest.missingProviders
        · exact ⟨hqin, hc2⟩
        · rw [if_neg hqin] at hl
          exact absurd hl (by simp)
    refine ⟨q, ?_, hqm.2, hqm.1⟩
    rw [← hq]
    exact listLinkInfos_secrets_err env ns instName manifest ss svcs e hmiss h1 h2 he
  · intro env ns instName manifest ss svcs li ql mp p h1 h2 hmiss0 hps hc
    have hmiss : manifest.missingProviders.length ≠ 0 :=
      fun h3 => hmiss0 (List.length_eq_zero.mp h3)
    cases hsr : getServiceRecords env.clusterDomain ns instName svcs [] with
    | ok sr =>
      have hb := getServiceRecords_ok_bound env.clusterDomain ns instName svcs [] sr p hsr
      have hz : lookupA ([] : List (String × ServiceRecord)) p = none := rfl
      rw [hz] at hb
      simp at hb
      omega
    | error e =>
      obtain ⟨q, hq, hcase⟩ := getServiceRecords_error_form env.clusterDomain ns instName
        svcs [] e hsr
      have hc2 : 2 ≤ claimCount instName q svcs := by
        rcases hcase with ⟨hl, _⟩ | ⟨_, hc2⟩
        · exact absurd rfl hl
        · exact hc2
      refine ⟨q, ?_, hc2⟩
      rw [← hq]
      exact listLinkInfos_services_err env ns instName manifest ss svcs li ql mp e
        hmiss h1 h2 hps hsr

def secretA1 : Secret :=
  ⟨"s1", [(LabelDeploymentName, "mydep"), ("link-provider", "A"), ("link-type", "t")]⟩

def secretA2 : Secret :=
  ⟨"s2", [(LabelDeploymentName, "mydep"), ("link-provider", "A"), ("link-type", "t")]⟩

def envC4w1 : LinkEnv :=
  ⟨.ok [secretA1, secretA2], .ok [], fun _ _ => .ok [], parseByAnnotation, "cluster.local"⟩

def secretB : Secret :=
  ⟨"sB", [(LabelDeploymentName, "mydep"), ("link-provider", "B"), ("link-type", "t")]⟩

def mB : Manifest := ⟨none, [], ["B"]⟩

def envC4w2 : LinkEnv :=
  ⟨.ok [secretB], .ok [svcA1, svcA2], fun _ _ => .ok [], parseByAnnotation, "cluster.local"⟩

/-- C4 witness: duplicate secrets for missing provider `A` and, with a
missing provider present, duplicate services claiming `A`, each abort the
pass with a duplicate error. -/
theorem c4_duplicate_providers_witness :
    (∃ q, listLinkInfos envC4w1 "ns1" "mydep" mA =
        .error ("duplicated secrets of provider: " ++ q) ∧
      2 ≤ declCount envC4w1 "mydep" q [secretA1, secretA2] ∧ q ∈ mA.missingProviders) ∧
    (∃ q, listLinkInfos envC4w2 "ns1" "mydep" mB =
        .error ("failed to get link services for " ++ "mydep" ++ ": " ++
          ("duplicated services of provider: " ++ q)) ∧
      2 ≤ claimCount "mydep" q [svcA1, svcA2]) := by
  constructor
  · refine c4_duplicate_providers.1 envC4w1 "ns1" "mydep" mA [secretA1, secretA2] [] "A"
      rfl rfl ?_ (by decide) (by decide)
    intro s hs _
    rcases List.mem_cons.mp hs with rfl | hs2
    · exact ⟨⟨"A", "t"⟩, rfl⟩
    · rcases List.mem_cons.mp hs2 with rfl | hs3
      · exact ⟨⟨"A", "t"⟩, rfl⟩
      · simp at hs3
  · exact c4_duplicate_providers.2 envC4w2 "ns1" "mydep" mB [secretB] [svcA1, svcA2]
      [⟨"sB", "B", "t"⟩] [("sB", ⟨"t", "", []⟩)] [("B", true)] "A"
      rfl rfl (by decide) (by rfl) (by decide)

def secretBadParse : Secret := ⟨"bad", [(LabelDeploymentName, "mydep")]⟩

def envC10 : LinkEnv :=
  ⟨.ok [secretBadParse], .ok [], fun _ _ => .ok [], parseByAnnotation, "cluster.local"⟩

/-- C10 counterexample: when the manifest has no missing providers, a
deployment-annotated secret whose link descriptor fails to parse does not
abort the pass: the secret is never examined and the resolver succeeds. -/
theorem c10_counterexample :
    lookupA secretBadParse.annotations LabelDeploymentName = some "mydep" ∧
    envC10.parseLink secretBadParse.annotations = .error "no link JSON annotation" ∧
    envC10.secrets = .ok [secretBadParse] ∧
    listLinkInfos envC10 "ns1" "mydep" mNoMissing = .ok ([], mNoMissing) := by
  exact ⟨rfl, rfl, rfl, rfl⟩

/-- C10 (amended): when the manifest has at least one missing provider,
every deployment-annotated secret is parsed before its relevance is
checked, so a parse failure on any such secret aborts the whole pass with
an error, even when its provider name (unknowable, since parsing failed)
is not among the missing providers. -/
theorem c10_parse_failure_aborts (env : LinkEnv) (ns instName : String)
    (manifest : Manifest) (ss : List Secret) (svcs : List Service)
    (s : Secret) (pe : String)
    (hmiss0 : manifest.missingProviders ≠ [])
    (h1 : env.secrets = .ok ss) (h2 : env.services = .ok svcs)
    (hs : s ∈ ss)
    (hdn : lookupA s.annotations LabelDeploymentName = some instName)
    (hp : env.parseLink s.annotations = .error pe) :
    ∃ e, listLinkInfos env ns instName manifest = .error e := by
  have hmiss : manifest.missingProviders.length ≠ 0 :=
    fun h3 => hmiss0 (List.length_eq_zero.mp h3)
  obtain ⟨e, he⟩ := processSecrets_parse_failure env instName ss [] []
    (manifest.missingProviders.map (fun n => (n, false))) s pe hs hdn hp
  exact ⟨e, listLinkInfos_secrets_err env ns instName manifest ss svcs e hmiss h1 h2 he⟩

/-- C10 witness: with missing provider `A`, the unparseable annotated
secret aborts the pass even though its provider name is unknown. -/
theorem c10_parse_failure_aborts_witness :
    ∃ e, listLinkInfos envC10 "ns1" "mydep" mA = .error e :=
  c10_parse_failure_aborts envC10 "ns1" "mydep" mA [secretBadParse] []
    secretBadParse "no link JSON annotation"
    (by decide) rfl rfl (by decide) rfl rfl

/-- C5: for a pending resolved link whose secret name matches a service
record: an empty pod listing fails; a pod with an empty address fails with
an error naming that pod (namespace/name); otherwise one `JobInstance` is
built per pod in listing order with `bootstrap` true exactly at index 0,
and the service DNS address is attached. -/
theorem c5_pod_instances (env : LinkEnv) (ns instName : String)
    (sr : List (String × ServiceRecord)) (qName : String) (q : QuarksLink)
    (svcRecord : ServiceRecord)
    (hrec : lookupA sr qName = some svcRecord) :
    (env.podsFor ns svcRecord.selector = .ok [] →
      resolveEntry env ns instName sr qName q =
        .error ("Failed to get link pods for " ++ instName ++ ": " ++
          "got an empty list of pods")) ∧
    (∀ (ps : List Pod) (k : Nat) (hk : k < ps.length),
      env.podsFor ns svcRecord.selector = .ok ps →
      (ps.get ⟨k, hk⟩).podIP = "" →
      (∀ j (hj : j < ps.length), j < k → ¬ (ps.get ⟨j, hj⟩).podIP = "") →
      resolveEntry env ns instName sr qName q =
        .error ("empty ip of kube native component: " ++
          (ps.get ⟨k, hk⟩).ns ++ "/" ++ (ps.get ⟨k, hk⟩).name)) ∧
    (∀ (ps : List Pod), env.podsFor ns svcRecord.selector = .ok ps →
      ps ≠ [] → (∀ p ∈ ps, ¬ p.podIP = "") →
      ∃ insts, resolveEntry env ns instName sr qName q =
          .ok ⟨q.type, svcRecord.dnsRecord, insts⟩ ∧
        insts.length = ps.length ∧
        ∀ i (hi : i < insts.length) (hp2 : i < ps.length),
          insts.get ⟨i, hi⟩ = ⟨qName, (ps.get ⟨i, hp2⟩).uid, i,
            (ps.get ⟨i, hp2⟩).podIP, decide (i = 0)⟩) := by
  refine ⟨?_, ?_, ?_⟩
  · intro hpods
    simp only [resolveEntry, hrec, listPodsFromSelector, hpods]
    rfl
  · intro ps k hk hpods hempty hfirst
    have hlen : ¬ ps.length = 0 := by
      intro h2
      rw [h2] at hk
      exact absurd hk (by simp)
    have hbi := buildInstances_err qName ps 0 k hk hempty hfirst
    simp only [resolveEntry, hrec, listPodsFromSelector, hpods, if_neg hlen, hbi]
  · intro ps hpods hne hips
    have hlen : ¬ ps.length = 0 := fun h2 => hne (List.length_eq_zero.mp h2)
    obtain ⟨l, hok, hl, hget⟩ := buildInstances_ok qName ps 0 hips
    refine ⟨l, ?_, hl, ?_⟩
    · simp only [resolveEntry, hrec, listPodsFromSelector, hpods, if_neg hlen, hok]
    · intro i hi hp2
      have := hget i hi hp2
      simpa using this

def podX : Pod := ⟨"ns1", "pod-0", "uid-0", "10.0.0.1"⟩

def podY : Pod := ⟨"ns1", "pod-1", "uid-1", "10.0.0.2"⟩

def podNoIP : Pod := ⟨"ns1", "pod-bad", "uid-2", ""⟩

def srOne : List (String × ServiceRecord) :=
  [("sec1", ⟨[("app", "x")], "svc1.ns1.svc.cluster.local"⟩)]

def recOne : ServiceRecord := ⟨[("app", "x")], "svc1.ns1.svc.cluster.local"⟩

def qPending : QuarksLink := ⟨"t", "", []⟩

def envPodsEmpty : LinkEnv :=
  ⟨.ok [], .ok [], fun _ _ => .ok [], parseByAnnotation, "cluster.local"⟩

def envPodsBad : LinkEnv :=
  ⟨.ok [], .ok [], fun _ _ => .ok [podX, podNoIP], parseByAnnotation, "cluster.local"⟩

def envPodsGood : LinkEnv :=
  ⟨.ok [], .ok [], fun _ _ => .ok [podX, podY], parseByAnnotation, "cluster.local"⟩

/-- C5 witness: the three branches at concrete inputs: empty pod list
fails, a pod without address fails naming it, and two addressed pods give
two instances with `bootstrap` only at index 0. -/
theorem c5_pod_instances_witness :
    (resolveEntry envPodsEmpty "ns1" "mydep" srOne "sec1" qPending =
      .error ("Failed to get link pods for " ++ "mydep" ++ ": " ++
        "got an empty list of pods")) ∧
    (resolveEntry envPodsBad "ns1" "mydep" srOne "sec1" qPending =
      .error ("empty ip of kube native component: " ++ "ns1" ++ "/" ++ "pod-bad")) ∧
    (∃ insts, resolveEntry envPodsGood "ns1" "mydep" srOne "sec1" qPending =
        .ok ⟨"t", "svc1.ns1.svc.cluster.local", insts⟩ ∧
      insts.length = 2 ∧
      ∀ i (hi : i < insts.length) (hp2 : i < [podX, podY].length),
        insts.get ⟨i, hi⟩ = ⟨"sec1", ([podX, podY].get ⟨i, hp2⟩).uid, i,
          ([podX, podY].get ⟨i, hp2⟩).podIP, decide (i = 0)⟩) := by
  refine ⟨?_, ?_, ?_⟩
  · exact (c5_pod_instances envPodsEmpty "ns1" "mydep" srOne "sec1" qPending recOne rfl).1 rfl
  · exact (c5_pod_instances envPodsBad "ns1" "mydep" srOne "sec1" qPending recOne rfl).2.1
      [podX, podNoIP] 1 (by decide) rfl (by decide)
      (by
        intro j hj hjk
        cases j with
        | zero => exact (by decide : ¬ podX.podIP = "")
        | succ j2 => omega)
  · obtain ⟨insts, h1, h2, h3⟩ :=
      (c5_pod_instances envPodsGood "ns1" "mydep" srOne "sec1" qPending recOne rfl).2.2
        [podX, podY] rfl (by decide)
        (by
          intro p hp
          rcases List.mem_cons.mp hp with rfl | hp2
          · decide
          · rcases List.mem_cons.mp hp2 with rfl | hp3
            · decide
            · simp at hp3)
    exact ⟨insts, h1, h2, h3⟩

/-- C9: a pending resolved link (registered from a secret with a non-empty
provider type) whose secret name has no matching service record does not
make the resolver fail: its `quarks_links` entry keeps only the type, an
empty address and no instances, and the pass succeeds with that incomplete
entry injected into the manifest properties. -/
theorem c9_unmatched_service_silent (env : LinkEnv) (ns instName : String)
    (manifest : Manifest) (ss : List Secret) (svcs : List Service)
    (li : List LinkInfo) (ql ql2 : List (String × QuarksLink))
    (mp : List (String × Bool)) (sr : List (String × ServiceRecord))
    (qName : String) (q : QuarksLink)
    (h1 : env.secrets = .ok ss) (h2 : env.services = .ok svcs)
    (hmiss0 : manifest.missingProviders ≠ [])
    (hps : processSecrets env instName ss [] []
      (manifest.missingProviders.map (fun n => (n, false))) = .ok (li, ql, mp))
    (hsr : getServiceRecords env.clusterDomain ns instName svcs [] = .ok sr)
    (hq : (qName, q) ∈ ql)
    (hnorec : lookupA sr qName = none)
    (hra : resolveAll env ns instName sr ql = .ok ql2)
    (hun : unmatched mp = []) :
    listLinkInfos env ns instName manifest = .ok (li, injectLinks manifest ql2) ∧
    (qName, q) ∈ ql2 ∧ q.type ≠ "" ∧ q.address = "" ∧ q.instances = [] ∧
    ∃ props, (injectLinks manifest ql2).properties = some props ∧
      lookupA props "quarks_links" = some (PropVal.links ql2) := by
  have hmiss : manifest.missingProviders.length ≠ 0 :=
    fun h3 => hmiss0 (List.length_eq_zero.mp h3)
  have hmem2 : (qName, q) ∈ ql2 :=
    resolveAll_preserves_unrecorded env ns instName sr ql ql2 qName q hq hnorec hra
  have hinv := processSecrets_invariants env instName ss [] [] _ li ql mp hps
  have hshape := hinv.2.2.2.1 (qName, q) hq
  rcases hshape with h3 | ⟨ht, ha, hi, _⟩
  · simp at h3
  · have hne2 : ql2 ≠ [] := List.ne_nil_of_mem hmem2
    exact ⟨listLinkInfos_ok_path env ns instName manifest ss svcs li ql ql2 mp sr
        hmiss h1 h2 hps hsr hra hun,
      hmem2, ht, ha, hi, injectLinks_lookup manifest ql2 hne2⟩

def mpA : List (String × Bool) := [("A", true)]

/-- C9 witness: one secret resolving `A` with type `nats` and no service
in the namespace: the pass succeeds and `quarks_links` carries the
incomplete entry (type only, empty address, no instances). -/
theorem c9_unmatched_service_silent_witness :
    listLinkInfos envC1w "ns1" "mydep" mA = .ok (liC3, injectLinks mA qlC3) ∧
    ("nats-secret", (⟨"nats", "", []⟩ : QuarksLink)) ∈ qlC3 ∧
    ("nats" : String) ≠ "" ∧ ("" : String) = "" ∧ ([] : List JobInstance) = [] ∧
    ∃ props, (injectLinks mA qlC3).properties = some props ∧
      lookupA props "quarks_links" = some (PropVal.links qlC3) := by
  have h := c9_unmatched_service_silent envC1w "ns1" "mydep" mA [secretProviderA] []
    liC3 qlC3 qlC3 mpA [] "nats-secret" ⟨"nats", "", []⟩
    rfl rfl (by decide) (by rfl) rfl (by decide) rfl (by rfl) (by decide)
  exact ⟨h.1, h.2.1, h.2.2.1, h.2.2.2.1, h.2.2.2.2.1, h.2.2.2.2.2⟩

def defaultLinkEnv : LinkEnv :=
  ⟨.ok [], .ok [], fun _ _ => .ok [], parseByAnnotation, "cluster.local"⟩

def instMelt : BOSHDeployment := ⟨"mydep", "ns1", 1, some 0⟩

def envMelt : RecEnv :=
  { getInstance := GetResult.found instMelt
    now := 9
    meltdownDuration := 10
    meltdownRequeueAfter := 30
    linkEnv := defaultLinkEnv
    withopsManifest := .ok mNoMissing
    marshal := fun _ => .ok "manifest"
    setRef := fun _ _ => .ok ()
    applySecret := fun _ => .ok OpResult.created
    variablesOf := fun _ _ => .ok []
    applyQuarksSecret := fun _ => .ok OpResult.created
    qsStatusUpdate := fun _ => .ok ()
    viJob := fun _ _ => .ok "vi-job"
    igJob := fun _ _ _ _ => .ok "ig-job"
    applyQuarksJob := fun _ => .ok OpResult.created
    bdplStatusUpdate := .ok () }

/-- C2 counterexample: with `lastReconcile = 0`, window 10, invoked at 9,
the reconcile is in meltdown, performs no mutating operation, and returns
the configured requeue delay 30, which exceeds the remaining window 10 - 9:
the claimed bound "delay at most W minus elapsed" fails. -/
theorem c2_counterexample :
    meltdownContains envMelt.meltdownDuration (some 0) envMelt.now = true ∧
    (Reconcile envMelt).effects = [] ∧
    (Reconcile envMelt).requeueAfter = 30 ∧
    ¬ ((Reconcile envMelt).requeueAfter ≤
        envMelt.meltdownDuration - (envMelt.now - 0)) := by
  exact ⟨rfl, rfl, rfl, by decide⟩

/-- C2 (amended): a reconcile at time `t` in `[T, T + W)` performs zero
mutating operations, returns no error, does not persist a new
`lastReconcile`, and returns the configured meltdown requeue delay (which
need not be bounded by `W` minus elapsed time); at `T + W` or later the
pipeline proceeds normally. -/
theorem c2_meltdown_window (env : RecEnv) (inst : BOSHDeployment) (T : Int)
    (hget : env.getInstance = GetResult.found inst)
    (hlast : inst.lastReconcile = some T) :
    ((T ≤ env.now ∧ env.now < T + env.meltdownDuration) →
      Reconcile env = { requeue := false, requeueAfter := env.meltdownRequeueAfter,
                        err := none, effects := [], persistedLastReconcile := none }) ∧
    (T + env.meltdownDuration ≤ env.now →
      Reconcile env = reconcileLoaded env inst) := by
  constructor
  · intro hw
    have hmc : meltdownContains env.meltdownDuration inst.lastReconcile env.now = true := by
      rw [hlast]
      simp only [meltdownContains]
      exact decide_eq_true hw
    simp [Reconcile, hget, hmc]
  · intro hw
    have hmc : meltdownContains env.meltdownDuration inst.lastReconcile env.now = false := by
      rw [hlast]
      simp only [meltdownContains]
      apply decide_eq_false
      intro hx
      omega
    simp [Reconcile, hget, hmc]

def envAfter : RecEnv := { envMelt with now := 10 }

/-- C2 witness: at time 9 inside the window the reconcile does nothing and
requeues after the configured 30; at time 10 = T + W it runs the pipeline. -/
theorem c2_meltdown_window_witness :
    Reconcile envMelt = { requeue := false, requeueAfter := 30, err := none,
                          effects := [], persistedLastReconcile := none } ∧
    Reconcile envAfter = reconcileLoaded envAfter instMelt := by
  constructor
  · exact (c2_meltdown_window envMelt instMelt 0 rfl rfl).1 (by decide)
  · exact (c2_meltdown_window envAfter instMelt 0 rfl rfl).2 (by decide)

/-- C6: when link resolution fails, the reconcile aborts before the
manifest-with-ops secret is applied: the returned outcome carries the
wrapped error, an empty effect trace (no secret, variable or job applies,
no status write), and no persisted timestamp. -/
theorem c6_link_failure_aborts (env : RecEnv) (inst : BOSHDeployment)
    (m : Manifest) (e : String)
    (h1 : env.getInstance = GetResult.found inst)
    (h2 : meltdownContains env.meltdownDuration inst.lastReconcile env.now = false)
    (h3 : env.withopsManifest = .ok m)
    (h4 : listLinkInfos env.linkEnv inst.ns inst.name m = .error e) :
    Reconcile env = { requeue := false, requeueAfter := 0,
                      err := some ("failed to list quarks-link secrets for BOSHDeployment " ++
                        inst.name ++ ": " ++ e),
                      effects := [], persistedLastReconcile := none } := by
  simp [Reconcile, h1, h2, reconcileLoaded, h3, h4, abortOutcome]

def instX : BOSHDeployment := ⟨"mydep", "ns1", 1, none⟩

def mNatsProv : Manifest := ⟨none, [], ["nats-provider"]⟩

def envC6 : RecEnv :=
  { envMelt with getInstance := GetResult.found instX, withopsManifest := .ok mNatsProv }

/-- C6 witness: a deployment requiring `nats-provider` with no matching
secret fails with the missing-link error and creates nothing. -/
theorem c6_link_failure_aborts_witness :
    Reconcile envC6 = { requeue := false, requeueAfter := 0,
                        err := some ("failed to list quarks-link secrets for BOSHDeployment " ++
                          "mydep" ++ ": " ++ "missing link secrets for providers: nats-provider"),
                        effects := [], persistedLastReconcile := none } :=
  c6_link_failure_aborts envC6 instX mNatsProv
    "missing link secrets for providers: nats-provider" rfl rfl rfl rfl

/-- C7: in `createQuarksSecrets`, the `Status().Update` call persisting
`Generated = false` on a variable secret is issued exactly when the
create-or-update for that secret reported `updated` — never on `created`
or `unchanged` — forcing downstream regeneration. -/
theorem c7_generated_reset_iff (env : RecEnv) (ownerName : String)
    (vars : List String) (v : String) :
    Effect.qsStatusUpdate v false ∈ (createQuarksSecrets env ownerName vars).1 ↔
    Effect.applyQuarksSecret v OpResult.updated ∈ (createQuarksSecrets env ownerName vars).1 := by
  induction vars with
  | nil => simp [createQuarksSecrets]
  | cons v2 rest ih =>
    simp only [createQuarksSecrets]
    cases hsr : env.setRef ownerName v2 with
    | error e => simp
    | ok u =>
      simp only []
      cases hap : env.applyQuarksSecret v2 with
      | error e => simp
      | ok op =>
        simp only []
        by_cases hop : op = OpResult.updated
        · rw [if_pos hop]
          subst hop
          cases hqs : env.qsStatusUpdate v2 with
          | error e =>
            by_cases hv : v = v2
            · subst hv
              simp
            · simp [hv]
          | ok u2 =>
            simp only []
            by_cases hv : v = v2
            · subst hv
              simp
            · simp only [List.mem_cons, Effect.qsStatusUpdate.injEq,
                Effect.applyQuarksSecret.injEq]
              constructor
              · rintro (h3 | h3 | h3)
                · exact absurd h3 (by simp)
                · exact absurd h3.1 hv
                · exact Or.inr (Or.inr (ih.mp h3))
              · rintro (h3 | h3 | h3)
                · exact absurd h3.1 hv
                · exact absurd h3 (by simp)
                · exact Or.inr (Or.inr (ih.mpr h3))
        · rw [if_neg hop]
          simp only [List.mem_cons, Effect.qsStatusUpdate.injEq,
            Effect.applyQuarksSecret.injEq]
          constructor
          · rintro (h3 | h3)
            · exact absurd h3 (by simp)
            · exact Or.inr (ih.mp h3)
          · rintro (h3 | h3)
            · exact absurd h3.2 (fun h4 => hop h4.symm)
            · exact Or.inr (ih.mpr h3)

/-- C8: when every pipeline step succeeds but persisting the
`lastReconcile` status fails, the reconcile still returns success — no
error, no requeue — the persisted timestamp does not advance, and the
already-applied effects (manifest secret, variable secrets, both jobs and
the attempted status write) remain in the trace, not rolled back. -/
theorem c8_status_write_best_effort (env : RecEnv) (inst : BOSHDeployment)
    (m m2 : Manifest) (li : List LinkInfo) (sn : String)
    (effs1 effs2 effs3 effs4 : List Effect) (vars : List String)
    (j1 j2 : String) (e : String)
    (h1 : env.getInstance = GetResult.found inst)
    (h2 : meltdownContains env.meltdownDuration inst.lastReconcile env.now = false)
    (h3 : env.withopsManifest = .ok m)
    (h4 : listLinkInfos env.linkEnv inst.ns inst.name m = .ok (li, m2))
    (h5 : createManifestWithOps env inst.name m2 = .ok (sn, effs1))
    (h6 : env.variablesOf inst.name m2.vars = .ok vars)
    (h7 : (if vars.length > 0 then createQuarksSecrets env sn vars
           else ([], none)) = (effs2, none))
    (h8 : env.viJob inst.name m2 = .ok j1)
    (h9 : createQuarksJob env inst.name j1 = .ok effs3)
    (h10 : env.igJob inst.name m2 li (decide (inst.generation = 1)) = .ok j2)
    (h11 : createQuarksJob env inst.name j2 = .ok effs4)
    (h12 : env.bdplStatusUpdate = .error e) :
    Reconcile env = { requeue := false, requeueAfter := 0, err := none,
                      effects := effs1 ++ effs2 ++ effs3 ++ effs4 ++ [Effect.bdplStatusUpdate],
                      persistedLastReconcile := none } := by
  simp [Reconcile, h1, h2, reconcileLoaded, h3, h4, h5, h6, h7, h8, h9, h10, h11, h12]

def envC8 : RecEnv :=
  { envMelt with getInstance := GetResult.found instX, bdplStatusUpdate := .error "conflict" }

/-- C8 witness: a full successful pipeline whose final status write fails
with a conflict still reports success, keeps its applied effects and does
not persist a timestamp. -/
theorem c8_status_write_best_effort_witness :
    Reconcile envC8 = { requeue := false, requeueAfter := 0, err := none,
                        effects := [Effect.applySecret (manifestSecretName "mydep") OpResult.created] ++ [] ++
                          [Effect.applyQuarksJob "vi-job" OpResult.created] ++
                          [Effect.applyQuarksJob "ig-job" OpResult.created] ++
                          [Effect.bdplStatusUpdate],
                        persistedLastReconcile := none } :=
  c8_status_write_best_effort envC8 instX mNoMissing mNoMissing [] (manifestSecretName "mydep")
    [Effect.applySecret (manifestSecretName "mydep") OpResult.created] [] 
    [Effect.applyQuarksJob "vi-job" OpResult.created]
    [Effect.applyQuarksJob "ig-job" OpResult.created]
    [] "vi-job" "ig-job" "conflict"
    rfl rfl rfl rfl rfl rfl rfl rfl rfl rfl rfl rfl
